import Mathlib

set_option maxHeartbeats 1000000
set_option linter.unusedVariables false

/-!
Verification of the elastic/funnel hashing library (Go).

Shallow embedding conventions:
* Go byte-slice keys are `List Nat`; stored values are a type parameter `V`.
* Go `uint32` / `int` arithmetic is modelled on `Nat` / `Int`; all sizes that
  occur in the claims are far below `2^32`, so `x % uint32(n)` is `x % n`.
* Go `float64` parameters (`delta`, `shrinkRatio`, `loglogn`, ...) are
  modelled as exact rationals `ℚ`; `math.Floor` / `math.Ceil` become
  `Int.floor` / `Int.ceil` and `int(x)` / `uint32(x)` (truncation towards
  zero of the non-negative quantities involved) become `Int.floor ·  |>.toNat`.
* The `math/rand/v2` ChaCha8 generator is external to the repository; it is
  modelled abstractly by two function fields `seedFn` (mapping the 32-byte
  reseed value, determined by its leading `uint32`, to a generator state) and
  `nextFn` (one `Uint64` draw: output value and successor state), plus the
  current state `rnd`.  Reseeding and sequential drawing are embedded
  faithfully through these fields.
* Bank `Data` arrays, which Go allocates lazily on first insert into a bank,
  are modelled as always allocated (`length = Size`); this is observationally
  equivalent on every path exercised by the claims (insert paths allocate, and
  lookups of previously inserted keys never pass the last allocated bank).
-/

namespace FunnelHash

/-- Byte-string key (Go `[]byte`); `slices.Equal` is list equality. -/
abbrev Key := List Nat

namespace funnel

/-- Go `funnel.Slot` (second generation): stored key and opaque value. -/
structure Slot (V : Type) where
  key : Key
  value : V
deriving DecidableEq

/-- The slot array of one bank (`Bank.Data`): each cell empty or owning a slot. -/
abbrev BankData (V : Type) := List (Option (Slot V))

/-- Go `funnel.Overflow`: slot array, `Loglogn` (a float, kept as `ℚ`),
fixed `Seed`, and the ChaCha8 generator modelled by the abstract
seeding/stepping functions `seedFn`/`nextFn` together with its current
state `rnd`. -/
structure Overflow (V : Type) where
  slots : List (Option (Slot V))
  loglogn : ℚ
  seed : Nat
  seedFn : Nat → Nat
  nextFn : Nat → Nat × Nat
  rnd : Nat

variable {V : Type}

/-- Generator state after `i` draws starting from state `s0`. -/
def rngState (ovf : Overflow V) (s0 : Nat) : Nat → Nat
  | 0 => s0
  | i + 1 => (ovf.nextFn (rngState ovf s0 i)).2

/-- Value of the `i`-th `Uint64` draw after starting from state `s0`. -/
def rngDraw (ovf : Overflow V) (s0 i : Nat) : Nat :=
  (ovf.nextFn (rngState ovf s0 i)).1

/-- Generator state right after `ovf.Rnd.Seed(seed)` where the
seed bytes hold `hsh XOR ovf.Seed` (the reseed done at the top of
`overflowUniformInsert` / `overflowUniformLookup`). -/
def seedState (ovf : Overflow V) (hsh : Nat) : Nat :=
  ovf.seedFn (Nat.xor hsh ovf.seed)

/-- The `i`-th candidate slot index probed by the uniform overflow table:
`hash mod size` first, then the successive reseeded draws mod size. -/
def probeIdx (ovf : Overflow V) (hsh : Nat) : Nat → Nat
  | 0 => hsh % ovf.slots.length
  | i + 1 => rngDraw ovf (seedState ovf hsh) i % ovf.slots.length

/-- Probe budget of the uniform overflow table: `int(Loglogn)` normally,
the whole slot count when it is the last overflow stage (`fullProbe`). -/
def probeBudget (ovf : Overflow V) (fullProbe : Bool) : Nat :=
  if fullProbe then ovf.slots.length else (⌊ovf.loglogn⌋).toNat

/-- First probe step `i` (with `start ≤ i < budget`) whose candidate slot is
empty, scanning the uniform probe sequence. -/
def firstFreeAux (ovf : Overflow V) (hsh budget : Nat) (i : Nat) : Option Nat :=
  if h : i < budget then
    match ovf.slots.getD (probeIdx ovf hsh i) none with
    | none => some i
    | some _ => firstFreeAux ovf hsh budget (i + 1)
  else none
termination_by budget - i

/-- Go `overflowUniformInsert`: reseed from `hsh XOR seed`, probe the
pseudo-random index sequence, stop at the first empty slot within the
budget. Returns the updated overflow (slot write and advanced generator
state) and the success flag. -/
def overflowUniformInsert (ovf : Overflow V) (hsh : Nat) (k : Key) (v : V)
    (fullProbe : Bool) : Overflow V × Bool :=
  let budget := probeBudget ovf fullProbe
  match firstFreeAux ovf hsh budget 0 with
  | some i =>
      ({ ovf with slots := ovf.slots.set (probeIdx ovf hsh i) (some ⟨k, v⟩),
                  rnd := rngState ovf (seedState ovf hsh) i }, true)
  | none => ({ ovf with rnd := rngState ovf (seedState ovf hsh) budget }, false)

/-- Scan of the uniform probe sequence from step `i`: stop with `none` at the
first empty slot or when the budget is exhausted, stop with the slot at the
first key match. -/
def lookupAux (ovf : Overflow V) (hsh : Nat) (k : Key) (budget : Nat) (i : Nat) :
    Option (Slot V) :=
  if h : i < budget then
    match ovf.slots.getD (probeIdx ovf hsh i) none with
    | none => none
    | some s => if s.key = k then some s else lookupAux ovf hsh k budget (i + 1)
  else none
termination_by budget - i

/-- Go `overflowUniformLookup` (the generator reseed makes the result
independent of the incoming generator state, so the lookup is modelled as a
pure reader). -/
def overflowUniformLookup (ovf : Overflow V) (hsh : Nat) (k : Key)
    (fullProbe : Bool) : Option (Slot V) :=
  lookupAux ovf hsh k (probeBudget ovf fullProbe) 0

/-- Bucket size of the two-choice overflow table: `int(2*Loglogn)`. -/
def tcBucketSize (ovf : Overflow V) : Nat := (⌊2 * ovf.loglogn⌋).toNat

/-- Bucket count of the two-choice overflow table. -/
def tcBuckets (ovf : Overflow V) : Nat := ovf.slots.length / tcBucketSize ovf

/-- Start offset of the bucket selected by a hash in the two-choice table. -/
def tcBucket (ovf : Overflow V) (hsh : Nat) : Nat :=
  (hsh % tcBuckets ovf) * tcBucketSize ovf

/-- Lockstep scan of the two candidate buckets from slot offset `j` on:
place the entry at the first empty slot of either bucket (checking
`bucket1+j` then `bucket2+j` at each offset). -/
def tcInsertAux (slots : List (Option (Slot V))) (b1 b2 : Nat) (k : Key) (v : V)
    (B : Nat) (j : Nat) : Option (List (Option (Slot V))) :=
  if h : j < B then
    match slots.getD (b1 + j) none with
    | none => some (slots.set (b1 + j) (some ⟨k, v⟩))
    | some _ =>
      match slots.getD (b2 + j) none with
      | none => some (slots.set (b2 + j) (some ⟨k, v⟩))
      | some _ => tcInsertAux slots b1 b2 k v B (j + 1)
  else none
termination_by B - j

/-- Go `overflowTwoChoiceInsert`. -/
def overflowTwoChoiceInsert (ovf : Overflow V) (hsh1 hsh2 : Nat) (k : Key)
    (v : V) : Overflow V × Bool :=
  match tcInsertAux ovf.slots (tcBucket ovf hsh1) (tcBucket ovf hsh2) k v
      (tcBucketSize ovf) 0 with
  | some slots => ({ ovf with slots := slots }, true)
  | none => (ovf, false)

/-- Lockstep lookup scan of the two candidate buckets from offset `j`:
stops with `none` at the first empty slot seen in either bucket, stops with
the slot at the first key match. -/
def tcLookupAux (slots : List (Option (Slot V))) (b1 b2 : Nat) (k : Key)
    (B : Nat) (j : Nat) : Option (Slot V) :=
  if h : j < B then
    match slots.getD (b1 + j) none with
    | none => none
    | some s1 =>
      if s1.key = k then some s1
      else
        match slots.getD (b2 + j) none with
        | none => none
        | some s2 =>
          if s2.key = k then some s2
          else tcLookupAux slots b1 b2 k B (j + 1)
  else none
termination_by B - j

/-- Go `overflowTwoChoiceLookup`. -/
def overflowTwoChoiceLookup (ovf : Overflow V) (hsh1 hsh2 : Nat) (k : Key) :
    Option (Slot V) :=
  tcLookupAux ovf.slots (tcBucket ovf hsh1) (tcBucket ovf hsh2) k
    (tcBucketSize ovf) 0

/-- Start offset of the bucket selected by a hash inside one bank
(`int(hsh % uint32(buckets)) * bucketSize`). -/
def bankBucketOff (data : BankData V) (β hsh : Nat) : Nat :=
  (hsh % (data.length / β)) * β

/-- Circular probe of one bucket for insertion: try slots
`boff + (ioff+j) % β` for `j = j0, j0+1, ..., β-1`, write into the first
empty one. -/
def bucketInsertAux (data : BankData V) (boff ioff β : Nat) (k : Key) (v : V)
    (j : Nat) : Option (BankData V) :=
  if h : j < β then
    match data.getD (boff + (ioff + j) % β) none with
    | none => some (data.set (boff + (ioff + j) % β) (some ⟨k, v⟩))
    | some _ => bucketInsertAux data boff ioff β k v (j + 1)
  else none
termination_by β - j

/-- Go `bankInsert`: probe the hash-selected bucket of each bank along the
chain, insert at the first empty slot found, `none` when every bucket on the
chain is full. -/
def bankInsert (β hsh : Nat) (k : Key) (v : V) :
    List (BankData V) → Option (List (BankData V))
  | [] => none
  | d :: rest =>
    match bucketInsertAux d (bankBucketOff d β hsh) (hsh % β) β k v 0 with
    | some d2 => some (d2 :: rest)
    | none => (bankInsert β hsh k v rest).map (d :: ·)

/-- Circular scan of one bucket for lookup: walk slots
`boff + (ioff+j) % β` for `j = j0, ..., β-1`, skip empty slots, stop at the
first slot whose key equals `k`. -/
def bucketScanAux (data : BankData V) (boff ioff β : Nat) (k : Key) (j : Nat) :
    Option (Slot V) :=
  if h : j < β then
    match data.getD (boff + (ioff + j) % β) none with
    | none => bucketScanAux data boff ioff β k (j + 1)
    | some s =>
      if s.key = k then some s else bucketScanAux data boff ioff β k (j + 1)
  else none
termination_by β - j

/-- Go `bankLookup`: scan the hash-selected bucket of each bank along the
chain for the key. -/
def bankLookup (β hsh : Nat) (k : Key) : List (BankData V) → Option (Slot V)
  | [] => none
  | d :: rest =>
    match bucketScanAux d (bankBucketOff d β hsh) (hsh % β) β k 0 with
    | some s => some s
    | none => bankLookup β hsh k rest

/-- Go `funnel.HashTable` (second generation). -/
structure HashTable (V : Type) where
  Hasher : Key → Nat
  BucketSize : Nat
  Capacity : Nat
  Inserts : Nat
  Banks : List (BankData V)
  Overflow1 : Overflow V
  Overflow2 : Overflow V

/-- Go package-level `insert`: banks first, then overflow-uniform (gated on
it being non-empty, with `fullProbe` when overflow-two-choice is empty), then
overflow-two-choice with the reseeded hashes; bump the counter on success.
Returns the table at exit (also on failure, where Go panics) and the flag. -/
def insert (t : HashTable V) (k : Key) (v : V) : HashTable V × Bool :=
  let hsh := t.Hasher k
  match bankInsert t.BucketSize hsh k v t.Banks with
  | some banks => ({ t with Banks := banks, Inserts := t.Inserts + 1 }, true)
  | none =>
    let step1 : Overflow V × Bool :=
      if 0 < t.Overflow1.slots.length then
        overflowUniformInsert t.Overflow1 hsh k v (t.Overflow2.slots.length == 0)
      else (t.Overflow1, false)
    match step1 with
    | (ovf1, true) => ({ t with Overflow1 := ovf1, Inserts := t.Inserts + 1 }, true)
    | (ovf1, false) =>
      let step2 : Overflow V × Bool :=
        if 0 < t.Overflow2.slots.length then
          overflowTwoChoiceInsert t.Overflow2 (Nat.xor (t.Hasher k) t.Overflow1.seed)
            (Nat.xor (t.Hasher k) t.Overflow2.seed) k v
        else (t.Overflow2, false)
      match step2 with
      | (ovf2, true) =>
          ({ t with Overflow1 := ovf1, Overflow2 := ovf2,
                    Inserts := t.Inserts + 1 }, true)
      | (_, false) => ({ t with Overflow1 := ovf1 }, false)

/-- Go package-level `lookup`: banks, then overflow-uniform, then
overflow-two-choice, mirroring the insert order and gating. -/
def lookup (t : HashTable V) (k : Key) : Option (Slot V) :=
  let hsh := t.Hasher k
  match bankLookup t.BucketSize hsh k t.Banks with
  | some s => some s
  | none =>
    let fromOvf1 : Option (Slot V) :=
      if 0 < t.Overflow1.slots.length then
        overflowUniformLookup t.Overflow1 hsh k (t.Overflow2.slots.length == 0)
      else none
    match fromOvf1 with
    | some s => some s
    | none =>
      if 0 < t.Overflow2.slots.length then
        overflowTwoChoiceLookup t.Overflow2 (Nat.xor (t.Hasher k) t.Overflow1.seed)
          (Nat.xor (t.Hasher k) t.Overflow2.seed) k
      else none

/-- Failure modes of `HashTable.Insert`: the capacity guard panic
("hash table is full") and the probe-exhaustion panic ("no free slots"). -/
inductive InsertError where
  | tableFull
  | noFreeSlots
deriving DecidableEq

/-- Go `HashTable.Insert`: reject when the insertion counter has reached the
stored capacity (before the key is hashed), otherwise run `insert`.  An error
carries the table state at the panic point (unchanged for the capacity
guard). -/
def Insert (t : HashTable V) (k : Key) (v : V) :
    Except (InsertError × HashTable V) (HashTable V) :=
  if t.Capacity ≤ t.Inserts then .error (.tableFull, t)
  else
    match insert t k v with
    | (t2, true) => .ok t2
    | (t2, false) => .error (.noFreeSlots, t2)

/-- Go `HashTable.Get`: value and found flag, as an `Option`. -/
def Get (t : HashTable V) (k : Key) : Option V :=
  (lookup t k).map Slot.value

/-- Go `HashTable.Cap`. -/
def Cap (t : HashTable V) : Nat := t.Capacity

/-- Go `HashTable.Len`. -/
def Len (t : HashTable V) : Nat := t.Inserts

/-- Whether a cell holds a slot whose key is `k`. -/
def slotHasKey (k : Key) : Option (Slot V) → Bool
  | none => false
  | some s => decide (s.key = k)

/-- Number of occupied cells of one slot array holding key `k`. -/
def keyCountL (l : List (Option (Slot V))) (k : Key) : Nat :=
  l.countP (slotHasKey k)

/-- Number of slots with key `k` over the whole bank chain. -/
def banksKeyCount (banks : List (BankData V)) (k : Key) : Nat :=
  (banks.map (keyCountL · k)).sum

/-- Number of slots with key `k` over the whole table. -/
def keyCount (t : HashTable V) (k : Key) : Nat :=
  banksKeyCount t.Banks k + keyCountL t.Overflow1.slots k +
    keyCountL t.Overflow2.slots k

/-- One cell of an array evolves by an insert-only discipline avoiding
key `k`: either unchanged, or a previously empty cell now owns a slot whose
key differs from `k`. -/
def CellExt (k : Key) (a b : Option (Slot V)) : Prop :=
  a = b ∨ (a = none ∧ ∃ s : Slot V, b = some s ∧ s.key ≠ k)

/-- A slot array evolves by filling empty cells only, never with key `k`. -/
def ExtendAvoid (k : Key) (l l2 : List (Option (Slot V))) : Prop :=
  l.length = l2.length ∧ ∀ i, CellExt k (l.getD i none) (l2.getD i none)

/-- Structural well-formedness used by the round-trip proof: positive bucket
size, every bank holds at least one bucket, and the two-choice overflow (when
enabled) holds at least one bucket.  Every table built by `NewHashTable`
satisfies this. -/
def WF (t : HashTable V) : Prop :=
  0 < t.BucketSize ∧ (∀ d ∈ t.Banks, t.BucketSize ≤ d.length) ∧
    (t.Overflow2.slots.length ≠ 0 →
      tcBucketSize t.Overflow2 ≤ t.Overflow2.slots.length)

/-- A freshly constructed table: every cell of every bank and of both
overflow tables is empty. -/
def Fresh (t : HashTable V) : Prop :=
  (∀ d ∈ t.Banks, ∀ c ∈ d, c = none) ∧ (∀ c ∈ t.Overflow1.slots, c = none) ∧
    (∀ c ∈ t.Overflow2.slots, c = none)

/-- Sequence of facade `Insert` calls; `none` as soon as one fails. -/
def insertSeq (t : HashTable V) : List (Key × V) → Option (HashTable V)
  | [] => some t
  | p :: ps =>
    match Insert t p.1 p.2 with
    | .ok t2 => insertSeq t2 ps
    | .error _ => none

/-- Intermediate quantities computed by `NewHashTable`'s sizing code. -/
structure Sizing where
  inflated : Int
  bankSizes : List Int
  rem : Int
  overflowSlots : Int
  ovf1Slots : Int
  ovf2Slots : Int
deriving DecidableEq

/-- The bank-construction loop of `NewHashTable`
(`for i := 0; i < int(alpha) && slots > int(beta); i++`): returns the list of
bank sizes and the residual slot count when the loop exits. -/
def banksLoop (bankShrink : ℚ) (beta : Int) : Nat → Int → List Int × Int
  | 0, slots => ([], slots)
  | i + 1, slots =>
    if beta < slots then
      let size : Int := beta * ⌈(slots : ℚ) * (1 - bankShrink) / (beta : ℚ)⌉
      let r := banksLoop bankShrink beta i (slots - size)
      (size :: r.1, r.2)
    else ([], slots)

/-- Sizing arithmetic of the funnel `NewHashTable` (everything after the
parameter checks).  The transcendental quantities
`alpha = ⌈4*log2(1/delta)⌉ + 10`, `beta = ⌈2*log2(1/delta)⌉` and
`loglogn = log2(log2(max(capacity+⌊capacity*delta⌋, 2)))` are taken as
explicit arguments because `log2` is irrational; theorems either quantify
over them or pin them at inputs where the Go float computation is exact.
Go `float64` arithmetic is modelled as exact rational arithmetic and Go's
truncating integer division as `Int.tdiv`. -/
def NewSizing (capacity : Int) (delta bankShrink : ℚ) (alpha beta : Nat)
    (loglogn : ℚ) : Sizing :=
  let overflowSlots0 : Int :=
    Int.tdiv (⌊delta * (capacity : ℚ) * bankShrink⌋ +
      ⌈delta * (capacity : ℚ) * (1/2 : ℚ)⌉) 2
  let inflated : Int := capacity + ⌊(capacity : ℚ) * delta⌋
  let slots0 : Int := inflated - overflowSlots0
  let r := banksLoop bankShrink (beta : Int) alpha slots0
  let overflowSlots : Int :=
    if r.2 < (beta : Int) then overflowSlots0 + r.2 else overflowSlots0
  let ovf2BucketSize : Int := ⌊2 * loglogn⌋
  let ovf2Half : Int := Int.tdiv overflowSlots 2
  let ovf2Slots : Int :=
    if ovf2BucketSize = 0 ∨ Int.tdiv ovf2Half ovf2BucketSize < 2 then 0
    else ovf2BucketSize * ⌈(ovf2Half : ℚ) / (ovf2BucketSize : ℚ)⌉
  ⟨inflated, r.1, r.2, overflowSlots, overflowSlots - ovf2Slots, ovf2Slots⟩

/-- Total slot count allocated by the constructor: all banks plus both
overflow tables. -/
def Sizing.totalSlots (s : Sizing) : Int :=
  s.bankSizes.sum + s.ovf1Slots + s.ovf2Slots

/-- Construction failures (Go panics in the constructors). -/
inductive ConstructionError where
  | badShrink
  | badDelta
  | badCapacity
  | badOccupation
  | badFillFactor
deriving DecidableEq

/-- Go funnel `NewHashTable`: the three parameter checks, in source order,
before anything is allocated; on success the table assembled from the sizing
output (all cells empty, insertion counter zero, the inflated capacity
stored).  `ovf1Seed` stands for the time-derived seed. -/
def NewHashTable (V : Type) (Hasher : Key → Nat) (seedFn : Nat → Nat)
    (nextFn : Nat → Nat × Nat) (ovf1Seed : Nat) (capacity : Int)
    (delta bankShrink : ℚ) (alpha beta : Nat) (loglogn : ℚ) :
    Except ConstructionError (HashTable V) :=
  if bankShrink < 1/2 ∨ 1 ≤ bankShrink then .error .badShrink
  else if delta ≤ 0 ∨ 1 ≤ delta then .error .badDelta
  else if capacity ≤ 0 then .error .badCapacity
  else
    let s := NewSizing capacity delta bankShrink alpha beta loglogn
    .ok
      { Hasher := Hasher
        BucketSize := beta
        Capacity := s.inflated.toNat
        Inserts := 0
        Banks := s.bankSizes.map (fun size => List.replicate size.toNat none)
        Overflow1 :=
          ⟨List.replicate s.ovf1Slots.toNat none, loglogn, ovf1Seed, seedFn,
            nextFn, 0⟩
        Overflow2 :=
          ⟨List.replicate s.ovf2Slots.toNat none, loglogn, 0, seedFn, nextFn,
            0⟩ }

end funnel

namespace elastic

/-- Go `elastic.Slot`. -/
structure Slot (V : Type) where
  Key : Key
  Value : V
deriving DecidableEq

/-- Go `elastic.Bank` (newest elastic variant): slot array, occupancy
counter, fixed probe seed. -/
structure Bank (V : Type) where
  Data : List (Option (Slot V))
  Inserts : Nat
  Seed : Nat

/-- Go `elastic.HashTable` (newest elastic variant), construction-relevant
fields. -/
structure HashTable (V : Type) where
  Hasher : Key → Nat
  Bank1FillFactor : ℚ
  Bank2Occupation : ℚ
  Capacity : Int
  Inserts : Nat
  Delta : ℚ
  Banks : List (Bank V)

/-- Go `elastic.NewHashTable`: the four parameter checks in source order,
then banks of sizes `1, 2, 4, ...` while `i < capacity`, plus one final
bank of size `2^(number built)`.  `math.Ceil(math.Log2 ...)` on the positive
integer inputs is `Nat.clog2`. -/
def NewHashTable (V : Type) (Hasher : Key → Nat) (capacity : Int)
    (delta bank2Occupation bank1FillFactor : ℚ) :
    Except funnel.ConstructionError (HashTable V) :=
  if capacity ≤ 0 then .error .badCapacity
  else if delta ≤ 0 ∨ 1 ≤ delta then .error .badDelta
  else if bank2Occupation ≤ 0 ∨ 1 ≤ bank2Occupation then .error .badOccupation
  else if bank1FillFactor ≤ 0 then .error .badFillFactor
  else
    let m := Nat.clog 2 capacity.toNat
    .ok
      { Hasher := Hasher
        Bank1FillFactor := bank1FillFactor
        Bank2Occupation := bank2Occupation
        Capacity := capacity
        Inserts := 0
        Delta := delta
        Banks :=
          (List.range m).map (fun j => ⟨List.replicate (2 ^ j) none, 0, 0⟩) ++
            [⟨List.replicate (2 ^ m) none, 0, 0⟩] }

end elastic

namespace elastic2

/-- Go `elastic2.bslot` (second generation `Bslot`): top-hash byte, key,
value. -/
structure bslot (V : Type) where
  Tophash : Nat
  Key : Key
  Value : V
deriving DecidableEq

/-- Go `elastic2.Bbank` (second generation): slot array and occupancy
counter; the `Next` pointer chain is flattened into a `List`. -/
structure bbank (V : Type) where
  Slots : List (Option (bslot V))
  Inserts : Nat
deriving DecidableEq

/-- Go `elastic2.HashTable` (second generation).  `math.Log2` is external
transcendental arithmetic; it is modelled by the function field `log2fn`,
which theorems quantify over or pin at power-of-two inputs where the Go
float computation is exact. -/
structure HashTable (V : Type) where
  Hasher : Key → Nat
  OverflowFactor : ℚ
  BankShrink : ℚ
  Capacity : Nat
  Inserts : Nat
  Delta : ℚ
  Banks : List (bbank V)
  log2fn : ℚ → ℚ

/-- Go `elastic2.NewHashTable`: no parameter validation at all; rounds the
capacity up to the next power of two (`math.Ceil(math.Log2 ...)` on positive
integers is `Nat.clog2`) and allocates the single root bank. -/
def NewHashTable (V : Type) (Hasher : Key → Nat) (log2fn : ℚ → ℚ)
    (capacity : Nat) (delta bankShrink bankOverflowFactor : ℚ) : HashTable V :=
  let banks := Nat.clog 2 capacity
  let capacity2 := 2 ^ banks
  { Hasher := Hasher
    OverflowFactor := bankOverflowFactor
    BankShrink := bankShrink
    Capacity := capacity2
    Inserts := 0
    Delta := delta
    Banks := [⟨List.replicate capacity2 none, 0⟩]
    log2fn := log2fn }

variable {V : Type}

/-- Free-slot fraction of a bank (`epsilon1` in `insert`). -/
def eps1 (b : bbank V) : ℚ :=
  ((b.Slots.length : ℚ) - (b.Inserts : ℚ)) / (b.Slots.length : ℚ)

/-- Free-slot fraction of the next bank (`epsilon2` in `insert`): `1.0` when
the bank has no successor. -/
def eps2 : List (bbank V) → ℚ
  | [] => 1
  | b :: _ => eps1 b

/-- The limited probe count of the `otherwise` row:
`uint32(OverflowFactor * min(log2(1/eps1)^2, log2(1/Delta)))` clamped into
`[1, len(slots)]` (`probes = max(min(probes, uint32(slots)), 1)`). -/
def probeLimit (delta c : ℚ) (log2fn : ℚ → ℚ) (b : bbank V) : Nat :=
  max (min (⌊c * min ((log2fn (1 / eps1 b)) ^ 2) (log2fn (1 / delta))⌋.toNat)
    b.Slots.length) 1

/-- The probe count chosen by the `switch` in `insert`. -/
def e2probes (delta bankShrink c : ℚ) (log2fn : ℚ → ℚ) (b : bbank V)
    (rest : List (bbank V)) : Nat :=
  if eps1 b > delta / 2 ∧ eps2 rest > bankShrink then probeLimit delta c log2fn b
  else if eps1 b ≤ delta / 2 then 0
  else b.Slots.length

/-- First empty slot along the probe window `(offset+j) % probes`,
`j = j0, ..., probes-1` (the linear circular probing loop of `insert`). -/
def e2firstFree (slots : List (Option (bslot V))) (offset probes : Nat)
    (j : Nat) : Option Nat :=
  if h : j < probes then
    match slots.getD ((offset + j) % probes) none with
    | none => some ((offset + j) % probes)
    | some _ => e2firstFree slots offset probes (j + 1)
  else none
termination_by probes - j

/-- Go `elastic2.insert` (second generation) over the flattened bank chain:
evaluate the fullness decision table for the current bank, probe the chosen
window, on failure move to the next bank (creating a half-sized bank at the
chain end; `none` models the "no free space" panic when the next size would
be zero). -/
def insert (delta bankShrink c : ℚ) (log2fn : ℚ → ℚ) (hsh : Nat) (k : Key)
    (v : V) : List (bbank V) → Option (List (bbank V))
  | [] => none
  | b :: rest =>
    let probes := e2probes delta bankShrink c log2fn b rest
    match e2firstFree b.Slots (hsh % b.Slots.length) probes 0 with
    | some idx =>
        some ({ b with Slots := b.Slots.set idx (some ⟨0, k, v⟩),
                       Inserts := b.Inserts + 1 } :: rest)
    | none =>
      match rest with
      | r :: rs =>
          (insert delta bankShrink c log2fn hsh k v (r :: rs)).map (b :: ·)
      | [] =>
        if h2 : b.Slots.length / 2 = 0 then none
        else
          (insert delta bankShrink c log2fn hsh k v
            [⟨List.replicate (b.Slots.length / 2) none, 0⟩]).map (b :: ·)
termination_by l => (l.length, (l.headD ⟨[], 0⟩).Slots.length)

end elastic2

/-! ### Concrete instances used by claim theorems, witnesses and
counterexamples -/

namespace funnel

/-- Uniform overflow table with 2 slots, slot 0 occupied and slot 1 empty,
driven by a constant-zero generator: every probe lands on slot 0. -/
def cexOverflow : Overflow Nat :=
  ⟨[some ⟨[9], 9⟩, none], 5, 0, fun _ => 0, fun st => (0, st), 0⟩

/-- Small well-formed fresh funnel table: one bank of four slots with bucket
size 2, a two-slot uniform overflow, two-choice overflow disabled. -/
def wtable : HashTable Nat where
  Hasher := fun kk => kk.headD 0
  BucketSize := 2
  Capacity := 10
  Inserts := 0
  Banks := [[none, none, none, none]]
  Overflow1 := ⟨[none, none], 1, 0, fun x => x, fun st => (st + 1, st + 1), 0⟩
  Overflow2 := ⟨[], 1, 0, fun x => x, fun st => (st + 1, st + 1), 0⟩

/-- `wtable` with its insertion counter at the stored capacity. -/
def wfull : HashTable Nat := { wtable with Inserts := 10 }

/-- Two-choice overflow with 2 buckets of 2 slots, all empty
(`Loglogn = 1`, so the bucket size `int(2*Loglogn)` is 2). -/
def w2Overflow : Overflow Nat :=
  ⟨[none, none, none, none], 1, 0, fun x => x, fun st => (st, st), 0⟩

/-- `w2Overflow` after a two-choice insert of key `[3]` with bucket pair
(0, 1): the entry sits in the first slot of bucket 0. -/
def w2after : Overflow Nat :=
  ⟨[some ⟨[3], 33⟩, none, none, none], 1, 0, fun x => x, fun st => (st, st), 0⟩

/-- One bank of four slots holding the key `[5]` at index 2. -/
def w9banks : List (BankData Nat) :=
  [[none, none, some ⟨[5], 7⟩, none]]

/-- `wtable` after the successful inserts of `[1] ↦ 11` (hash 1, bucket 1,
cell 3) and `[2] ↦ 22` (hash 2, bucket 0, cell 0). -/
def wtableAfter : HashTable Nat where
  Hasher := fun kk => kk.headD 0
  BucketSize := 2
  Capacity := 10
  Inserts := 2
  Banks := [[some ⟨[2], 22⟩, none, none, some ⟨[1], 11⟩]]
  Overflow1 := ⟨[none, none], 1, 0, fun x => x, fun st => (st + 1, st + 1), 0⟩
  Overflow2 := ⟨[], 1, 0, fun x => x, fun st => (st + 1, st + 1), 0⟩

end funnel

namespace elastic2

/-- A dummy occupied slot. -/
def cexSlot : Option (bslot Nat) := some ⟨0, [99], 0⟩

/-- 8-slot bank, 4 occupied (indices 0,1,2,7), free fraction 1/2;
the 3-slot probe window of hash 5 covers exactly indices 0,1,2. -/
def cexBankA : bbank Nat :=
  ⟨[cexSlot, cexSlot, cexSlot, none, none, none, none, cexSlot], 4⟩

/-- Second bank with the same layout: its probe window is full although the
bank has free slots (e.g. index 3). -/
def cexBankB : bbank Nat :=
  ⟨[cexSlot, cexSlot, cexSlot, none, none, none, none, cexSlot], 4⟩

/-- Third bank, free fraction 1/2, whose probe window contains the empty
index 2. -/
def cexBankC : bbank Nat :=
  ⟨[none, none, none, none, cexSlot, cexSlot, cexSlot, cexSlot], 4⟩

/-- `math.Log2` stand-in for the concrete runs below.  Those runs only ever
evaluate their `log2fn` at the argument `2` (both `1/eps1` and `1/Delta`
equal `2` there), where this function agrees with the real base-2 logarithm:
`log2OnPow 2 = 1 = log2 2`. -/
def log2OnPow (q : ℚ) : ℚ := if 2 ≤ q then 1 else 0

end elastic2

/-! ### Generic list helpers -/

theorem getD_eq_getElem?_getD {α : Type _} (l : List α) (i : Nat) (d : α) :
    l.getD i d = (l[i]?).getD d := List.getD_eq_getElem?_getD l i d

theorem getD_set_self {α : Type _} (l : List α) (i : Nat) (a d : α)
    (h : i < l.length) : (l.set i a).getD i d = a := by
  simp [getD_eq_getElem?_getD, List.getElem?_set_self h]

theorem getD_set_ne {α : Type _} (l : List α) (i j : Nat) (a d : α)
    (h : i ≠ j) : (l.set i a).getD j d = l.getD j d := by
  simp [getD_eq_getElem?_getD, List.getElem?_set_ne h]

theorem getD_some_mem {α : Type _} (l : List (Option α)) (i : Nat)
    (s : α) (h : l.getD i none = some s) : some s ∈ l := by
  rw [getD_eq_getElem?_getD] at h
  cases hc : l[i]? with
  | none => rw [hc] at h; simp at h
  | some c =>
    rw [hc] at h
    simp only [Option.getD_some] at h
    subst h
    exact List.getElem?_mem hc

theorem getD_lt_length {α : Type _} (l : List (Option α)) (i : Nat) (s : α)
    (h : l.getD i none = some s) : i < l.length := by
  by_contra hge
  rw [getD_eq_getElem?_getD, List.getElem?_eq_none (by omega)] at h
  simp at h

namespace funnel

variable {V : Type}

/-! ### Cell extension basics -/

theorem CellExt.cellRefl (k : Key) (a : Option (Slot V)) : CellExt k a a := Or.inl rfl

theorem ExtendAvoid.extRefl (k : Key) (l : List (Option (Slot V))) :
    ExtendAvoid k l l := ⟨rfl, fun i => CellExt.cellRefl k _⟩

theorem ExtendAvoid.of_set (k : Key) (l : List (Option (Slot V))) (i : Nat)
    (s : Slot V) (hcell : l.getD i none = none) (hk : s.key ≠ k) :
    ExtendAvoid k l (l.set i (some s)) := by
  refine ⟨(List.length_set l i _).symm, fun j => ?_⟩
  by_cases hij : i = j
  · subst hij
    by_cases hlen : i < l.length
    · exact Or.inr ⟨hcell, s, getD_set_self l i _ none hlen, hk⟩
    · left
      rw [List.set_eq_of_length_le (by omega)]
  · left
    rw [getD_set_ne l i j _ none hij]

theorem ExtendAvoid.keyCountL_eq_zero (k : Key) (l l2 : List (Option (Slot V)))
    (hext : ExtendAvoid k l l2) (hfree : keyCountL l k = 0) :
    keyCountL l2 k = 0 := by
  rw [keyCountL, List.countP_eq_zero]
  intro a ha
  obtain ⟨i, hi, hget⟩ := List.mem_iff_getElem.mp ha
  have hgetD : l2.getD i none = a := by
    rw [getD_eq_getElem?_getD, List.getElem?_eq_getElem hi, Option.getD_some, hget]
  have hfree2 := List.countP_eq_zero.mp hfree
  rcases hext.2 i with hsame | ⟨hnone, s, hs, hk⟩
  · cases a with
    | none => simp [slotHasKey]
    | some s2 =>
      have hmem : some s2 ∈ l := getD_some_mem l i s2 (by rw [hsame, hgetD])
      exact hfree2 _ hmem
  · have haeq : a = some s := by rw [← hgetD, hs]
    subst haeq
    simp [slotHasKey, hk]

theorem keyCountL_set_of_none (l : List (Option (Slot V))) (i : Nat)
    (s : Slot V) (hcell : l.getD i none = none) (hlen : i < l.length)
    (k2 : Key) : keyCountL (l.set i (some s)) k2 =
      keyCountL l k2 + (if s.key = k2 then 1 else 0) := by
  have hold : l[i] = none := by
    rw [← List.getD_eq_getElem l none hlen]; exact hcell
  rw [keyCountL, keyCountL, List.countP_set _ _ _ _ hlen, hold]
  simp [slotHasKey]

theorem keyCountL_pos_of_cell (l : List (Option (Slot V))) (i : Nat)
    (s : Slot V) (k : Key) (hcell : l.getD i none = some s)
    (hk : s.key = k) : 0 < keyCountL l k := by
  rw [keyCountL, List.countP_pos_iff]
  exact ⟨some s, getD_some_mem l i s hcell, by simp [slotHasKey, hk]⟩

theorem keyfree_cell (l : List (Option (Slot V))) (k : Key)
    (hfree : keyCountL l k = 0) (i : Nat) (s : Slot V)
    (hcell : l.getD i none = some s) : s.key ≠ k := by
  intro hk
  have := keyCountL_pos_of_cell l i s k hcell hk
  omega

/-! ### Bucket scan and bucket insert lemmas (funnel banks) -/

theorem bucketScanAux_none_of_keyfree (data : BankData V) (boff ioff β : Nat)
    (k : Key) (hfree : keyCountL data k = 0) :
    ∀ j, bucketScanAux data boff ioff β k j = none := by
  intro j
  induction j using bucketScanAux.induct data boff ioff β k with
  | case1 j hj hc ih =>
    rw [bucketScanAux]
    simp only [dif_pos hj, hc]
    exact ih
  | case2 j hj s hc hk =>
    exact absurd hk (keyfree_cell data k hfree _ s hc)
  | case3 j hj s hc hk ih =>
    rw [bucketScanAux]
    simp only [dif_pos hj, hc, if_neg hk]
    exact ih
  | case4 j hj =>
    rw [bucketScanAux]
    simp [hj]

theorem bucketScanAux_extendAvoid (k : Key) (data data2 : BankData V)
    (hext : ExtendAvoid k data data2) (boff ioff β : Nat) :
    ∀ j, bucketScanAux data2 boff ioff β k j =
      bucketScanAux data boff ioff β k j := by
  intro j
  induction j using bucketScanAux.induct data boff ioff β k with
  | case1 j hj hc ih =>
    rcases hext.2 (boff + (ioff + j) % β) with hsame | ⟨hnone, s, hs, hk⟩
    · conv_lhs => rw [bucketScanAux]
      conv_rhs => rw [bucketScanAux]
      simp only [dif_pos hj, hc, ← hsame]
      exact ih
    · conv_lhs => rw [bucketScanAux]
      conv_rhs => rw [bucketScanAux]
      simp only [dif_pos hj, hc, hs, if_neg hk]
      exact ih
  | case2 j hj s hc hk =>
    have hc2 : data2.getD (boff + (ioff + j) % β) none = some s := by
      rcases hext.2 (boff + (ioff + j) % β) with hsame | ⟨hnone, _, _, _⟩
      · rw [← hsame]; exact hc
      · rw [hc] at hnone; exact absurd hnone (by simp)
    conv_lhs => rw [bucketScanAux]
    conv_rhs => rw [bucketScanAux]
    simp only [dif_pos hj, hc, hc2, if_pos hk]
  | case3 j hj s hc hk ih =>
    have hc2 : data2.getD (boff + (ioff + j) % β) none = some s := by
      rcases hext.2 (boff + (ioff + j) % β) with hsame | ⟨hnone, _, _, _⟩
      · rw [← hsame]; exact hc
      · rw [hc] at hnone; exact absurd hnone (by simp)
    conv_lhs => rw [bucketScanAux]
    conv_rhs => rw [bucketScanAux]
    simp only [dif_pos hj, hc, hc2, if_neg hk]
    exact ih
  | case4 j hj =>
    conv_lhs => rw [bucketScanAux]
    conv_rhs => rw [bucketScanAux]
    simp [hj]

theorem bucketScanAux_some (data : BankData V) (boff ioff β : Nat) (k : Key) :
    ∀ j s, bucketScanAux data boff ioff β k j = some s →
      s.key = k ∧ ∃ j0, j ≤ j0 ∧ j0 < β ∧
        data.getD (boff + (ioff + j0) % β) none = some s := by
  intro j
  induction j using bucketScanAux.induct data boff ioff β k with
  | case1 j hj hc ih =>
    intro s h
    rw [bucketScanAux] at h
    simp only [dif_pos hj, hc] at h
    obtain ⟨hk, j0, hle, hlt, hcell⟩ := ih s h
    exact ⟨hk, j0, by omega, hlt, hcell⟩
  | case2 j hj s hc hk =>
    intro s2 h
    rw [bucketScanAux] at h
    simp only [dif_pos hj, hc, if_pos hk] at h
    cases h
    exact ⟨hk, j, le_refl j, hj, hc⟩
  | case3 j hj s hc hk ih =>
    intro s2 h
    rw [bucketScanAux] at h
    simp only [dif_pos hj, hc, if_neg hk] at h
    obtain ⟨hk2, j0, hle, hlt, hcell⟩ := ih s2 h
    exact ⟨hk2, j0, by omega, hlt, hcell⟩
  | case4 j hj =>
    intro s h
    rw [bucketScanAux] at h
    simp [hj] at h

theorem bucketScanAux_finds (data : BankData V) (boff ioff β : Nat) (k : Key)
    (s : Slot V) (hsk : s.key = k)
    (huniq : ∀ i, ∀ s2 : Slot V, data.getD i none = some s2 → s2.key = k →
      s2 = s) :
    ∀ j, ∀ j0, j ≤ j0 → j0 < β →
      data.getD (boff + (ioff + j0) % β) none = some s →
      bucketScanAux data boff ioff β k j = some s := by
  intro j
  induction j using bucketScanAux.induct data boff ioff β k with
  | case1 j hj hc ih =>
    intro j0 hle hlt hcell
    have hne : j ≠ j0 := by
      intro heq
      subst heq
      rw [hc] at hcell
      exact absurd hcell (by simp)
    rw [bucketScanAux]
    simp only [dif_pos hj, hc]
    exact ih j0 (by omega) hlt hcell
  | case2 j hj s2 hc hk =>
    intro j0 hle hlt hcell
    rw [bucketScanAux]
    simp only [dif_pos hj, hc, if_pos hk]
    rw [huniq _ s2 hc hk]
  | case3 j hj s2 hc hk ih =>
    intro j0 hle hlt hcell
    have hne : j ≠ j0 := by
      intro heq
      subst heq
      rw [hc] at hcell
      cases hcell
      exact hk hsk
    rw [bucketScanAux]
    simp only [dif_pos hj, hc, if_neg hk]
    exact ih j0 (by omega) hlt hcell
  | case4 j hj =>
    intro j0 hle hlt hcell
    omega

theorem bucketInsertAux_some (data : BankData V) (boff ioff β : Nat) (k : Key)
    (v : V) : ∀ j d2, bucketInsertAux data boff ioff β k v j = some d2 →
      ∃ j0, j ≤ j0 ∧ j0 < β ∧
        data.getD (boff + (ioff + j0) % β) none = none ∧
        d2 = data.set (boff + (ioff + j0) % β) (some ⟨k, v⟩) := by
  intro j
  induction j using bucketInsertAux.induct data boff ioff β k v with
  | case1 j hj hc =>
    intro d2 h
    rw [bucketInsertAux] at h
    simp only [dif_pos hj, hc] at h
    cases h
    exact ⟨j, le_refl j, hj, hc, rfl⟩
  | case2 j hj s hc ih =>
    intro d2 h
    rw [bucketInsertAux] at h
    simp only [dif_pos hj, hc] at h
    obtain ⟨j0, hle, hlt, hcell, hset⟩ := ih d2 h
    exact ⟨j0, by omega, hlt, hcell, hset⟩
  | case3 j hj =>
    intro d2 h
    rw [bucketInsertAux] at h
    simp [hj] at h

/-! ### Bank chain lemmas -/

theorem banksKeyCount_nil (k : Key) : banksKeyCount ([] : List (BankData V)) k = 0 := rfl

theorem banksKeyCount_cons (d : BankData V) (rest : List (BankData V)) (k : Key) :
    banksKeyCount (d :: rest) k = keyCountL d k + banksKeyCount rest k := by
  simp [banksKeyCount]

theorem banksKeyCount_eq_zero (banks : List (BankData V)) (k : Key) :
    banksKeyCount banks k = 0 ↔ ∀ d ∈ banks, keyCountL d k = 0 := by
  induction banks with
  | nil => simp [banksKeyCount]
  | cons d rest ih =>
    rw [banksKeyCount_cons]
    simp only [List.mem_cons, forall_eq_or_imp]
    rw [← ih]
    omega

theorem bankBucketOff_add_lt (data : BankData V) (β hsh m : Nat) (hβ : 0 < β)
    (hlen : β ≤ data.length) (hm : m < β) :
    bankBucketOff data β hsh + m < data.length := by
  have hq : 1 ≤ data.length / β := (Nat.one_le_div_iff hβ).mpr hlen
  have h1 : hsh % (data.length / β) ≤ data.length / β - 1 :=
    Nat.le_sub_one_of_lt (Nat.mod_lt _ (by omega))
  have h2 : bankBucketOff data β hsh ≤ (data.length / β - 1) * β :=
    Nat.mul_le_mul_right β h1
  have h3 : (data.length / β - 1) * β + β = (data.length / β) * β := by
    have h5 : data.length / β - 1 + 1 = data.length / β := by omega
    calc (data.length / β - 1) * β + β = (data.length / β - 1 + 1) * β := by ring
    _ = (data.length / β) * β := by rw [h5]
  have h4 : (data.length / β) * β ≤ data.length := Nat.div_mul_le_self _ _
  omega

theorem bankInsert_spec (β hsh : Nat) (hβ : 0 < β) (k : Key) (v : V) :
    ∀ (banks banks2 : List (BankData V)), (∀ d ∈ banks, β ≤ d.length) →
      bankInsert β hsh k v banks = some banks2 →
      List.Forall₂ (fun d d2 : BankData V => d.length = d2.length ∧
        ∀ k2 : Key, k2 ≠ k → ExtendAvoid k2 d d2) banks banks2 ∧
      banksKeyCount banks2 k = banksKeyCount banks k + 1 ∧
      (∀ k2, k2 ≠ k → banksKeyCount banks2 k2 = banksKeyCount banks k2) := by
  intro banks
  induction banks with
  | nil => intro banks2 _ h; simp [bankInsert] at h
  | cons d rest ih =>
    intro banks2 hlen h
    rw [bankInsert] at h
    cases hins : bucketInsertAux d (bankBucketOff d β hsh) (hsh % β) β k v 0 with
    | some d2 =>
      rw [hins] at h
      cases h
      obtain ⟨j0, _, hj0, hcell, hset⟩ := bucketInsertAux_some d _ _ β k v 0 d2 hins
      have hidx : bankBucketOff d β hsh + (hsh % β + j0) % β < d.length :=
        bankBucketOff_add_lt d β hsh _ hβ (hlen d (by simp)) (Nat.mod_lt _ hβ)
      subst hset
      refine ⟨List.Forall₂.cons ⟨by simp, fun k2 hk2 => ?_⟩
        (List.forall₂_same.mpr fun x hx => ⟨rfl, fun k2 _ => ExtendAvoid.extRefl k2 x⟩), ?_, ?_⟩
      · exact ExtendAvoid.of_set k2 d _ ⟨k, v⟩ hcell (by simpa using (Ne.symm hk2))
      · rw [banksKeyCount_cons, banksKeyCount_cons,
          keyCountL_set_of_none d _ ⟨k, v⟩ hcell hidx k, if_pos rfl]
        omega
      · intro k2 hk2
        rw [banksKeyCount_cons, banksKeyCount_cons,
          keyCountL_set_of_none d _ ⟨k, v⟩ hcell hidx k2,
          if_neg (by simpa using Ne.symm hk2)]
        omega
    | none =>
      rw [hins] at h
      obtain ⟨rest2, hrest, hbanks2⟩ := Option.map_eq_some'.mp h
      subst hbanks2
      obtain ⟨hfa, hcnt, hcnt2⟩ := ih rest2 (fun x hx => hlen x (by simp [hx])) hrest
      refine ⟨List.Forall₂.cons ⟨rfl, fun k2 _ => ExtendAvoid.extRefl k2 d⟩ hfa, ?_, ?_⟩
      · rw [banksKeyCount_cons, banksKeyCount_cons, hcnt]; omega
      · intro k2 hk2
        rw [banksKeyCount_cons, banksKeyCount_cons, hcnt2 k2 hk2]

theorem bankLookup_none_of_keyfree (β hsh : Nat) (k : Key) :
    ∀ banks : List (BankData V), (∀ d ∈ banks, keyCountL d k = 0) →
      bankLookup β hsh k banks = none := by
  intro banks
  induction banks with
  | nil => intro _; rfl
  | cons d rest ih =>
    intro h
    rw [bankLookup,
      bucketScanAux_none_of_keyfree d (bankBucketOff d β hsh) (hsh % β) β k
        (h d (by simp)) 0]
    exact ih fun x hx => h x (by simp [hx])

theorem bankLookup_extendAvoid (β hsh : Nat) (k : Key)
    (banks banks2 : List (BankData V))
    (h : List.Forall₂ (ExtendAvoid k) banks banks2) :
    bankLookup β hsh k banks2 = bankLookup β hsh k banks := by
  induction h with
  | nil => rfl
  | @cons d d2 rest rest2 h1 h2 ih =>
    rw [bankLookup, bankLookup]
    have hoff : bankBucketOff d2 β hsh = bankBucketOff d β hsh := by
      unfold bankBucketOff
      rw [h1.1]
    rw [hoff, bucketScanAux_extendAvoid k d d2 h1]
    cases bucketScanAux d (bankBucketOff d β hsh) (hsh % β) β k 0 with
    | some s => rfl
    | none => exact ih

theorem bankLookup_some (β hsh : Nat) (k : Key) :
    ∀ (banks : List (BankData V)) (s : Slot V),
      bankLookup β hsh k banks = some s →
      s.key = k ∧ ∃ d ∈ banks, ∃ j0, j0 < β ∧
        d.getD (bankBucketOff d β hsh + (hsh % β + j0) % β) none = some s := by
  intro banks
  induction banks with
  | nil => intro s h; simp [bankLookup] at h
  | cons d rest ih =>
    intro s h
    rw [bankLookup] at h
    cases hscan : bucketScanAux d (bankBucketOff d β hsh) (hsh % β) β k 0 with
    | some s2 =>
      rw [hscan] at h
      obtain ⟨hk, j0, _, hj0, hcell⟩ :=
        bucketScanAux_some d (bankBucketOff d β hsh) (hsh % β) β k 0 s2 hscan
      cases h
      exact ⟨hk, d, by simp, j0, hj0, hcell⟩
    | none =>
      rw [hscan] at h
      obtain ⟨hk, d0, hd0, j0, hj0, hcell⟩ := ih s h
      exact ⟨hk, d0, by simp [hd0], j0, hj0, hcell⟩

theorem bankLookup_after_insert (β hsh : Nat) (hβ : 0 < β) (k : Key) (v : V) :
    ∀ banks banks2 : List (BankData V), (∀ d ∈ banks, β ≤ d.length) →
      (∀ d ∈ banks, keyCountL d k = 0) →
      bankInsert β hsh k v banks = some banks2 →
      bankLookup β hsh k banks2 = some ⟨k, v⟩ := by
  intro banks
  induction banks with
  | nil => intro banks2 _ _ h; simp [bankInsert] at h
  | cons d rest ih =>
    intro banks2 hlen hfree h
    rw [bankInsert] at h
    cases hins : bucketInsertAux d (bankBucketOff d β hsh) (hsh % β) β k v 0 with
    | some d2 =>
      rw [hins] at h
      cases h
      obtain ⟨j0, _, hj0, hcell, hset⟩ := bucketInsertAux_some d _ _ β k v 0 d2 hins
      have hidx : bankBucketOff d β hsh + (hsh % β + j0) % β < d.length :=
        bankBucketOff_add_lt d β hsh _ hβ (hlen d (by simp)) (Nat.mod_lt _ hβ)
      subst hset
      rw [bankLookup]
      have hoff : bankBucketOff
          (d.set (bankBucketOff d β hsh + (hsh % β + j0) % β) (some ⟨k, v⟩)) β hsh =
          bankBucketOff d β hsh := by
        unfold bankBucketOff
        simp
      rw [hoff]
      have huniq : ∀ i, ∀ s2 : Slot V,
          (d.set (bankBucketOff d β hsh + (hsh % β + j0) % β)
            (some ⟨k, v⟩)).getD i none = some s2 → s2.key = k →
          s2 = ⟨k, v⟩ := by
        intro i s2 hc2 hk2
        by_cases hii : bankBucketOff d β hsh + (hsh % β + j0) % β = i
        · subst hii
          rw [getD_set_self _ _ _ _ hidx] at hc2
          cases hc2
          rfl
        · rw [getD_set_ne _ _ _ _ _ hii] at hc2
          exact absurd hk2 (keyfree_cell d k (hfree d (by simp)) i s2 hc2)
      rw [bucketScanAux_finds _ (bankBucketOff d β hsh) (hsh % β) β k ⟨k, v⟩ rfl
        huniq 0 j0 (Nat.zero_le _) hj0 (by rw [getD_set_self _ _ _ _ hidx])]
    | none =>
      rw [hins] at h
      obtain ⟨rest2, hrest, hbanks2⟩ := Option.map_eq_some'.mp h
      subst hbanks2
      rw [bankLookup,
        bucketScanAux_none_of_keyfree d (bankBucketOff d β hsh) (hsh % β) β k
          (hfree d (by simp)) 0]
      exact ih rest2 (fun x hx => hlen x (by simp [hx]))
        (fun x hx => hfree x (by simp [hx])) hrest

/-! ### Uniform overflow lemmas -/

theorem rngState_congr (ovf ovf2 : Overflow V) (hnf : ovf2.nextFn = ovf.nextFn)
    (s0 : Nat) : ∀ i, rngState ovf2 s0 i = rngState ovf s0 i := by
  intro i
  induction i with
  | zero => rfl
  | succ i ih => rw [rngState, rngState, hnf, ih]

theorem probeIdx_congr (ovf ovf2 : Overflow V)
    (hlen : ovf2.slots.length = ovf.slots.length) (hseed : ovf2.seed = ovf.seed)
    (hsf : ovf2.seedFn = ovf.seedFn) (hnf : ovf2.nextFn = ovf.nextFn)
    (hsh : Nat) : ∀ i, probeIdx ovf2 hsh i = probeIdx ovf hsh i := by
  intro i
  cases i with
  | zero => rw [probeIdx, probeIdx, hlen]
  | succ i =>
    rw [probeIdx, probeIdx, hlen]
    unfold rngDraw seedState
    rw [hsf, hnf, hseed, rngState_congr ovf ovf2 hnf _ i]

theorem firstFreeAux_some (ovf : Overflow V) (hsh budget : Nat) :
    ∀ j i, firstFreeAux ovf hsh budget j = some i →
      j ≤ i ∧ i < budget ∧ ovf.slots.getD (probeIdx ovf hsh i) none = none ∧
      ∀ i2, j ≤ i2 → i2 < i →
        ovf.slots.getD (probeIdx ovf hsh i2) none ≠ none := by
  intro j
  induction j using firstFreeAux.induct ovf hsh budget with
  | case1 j hj hc =>
    intro i h
    rw [firstFreeAux] at h
    simp only [dif_pos hj, hc] at h
    cases h
    exact ⟨le_refl j, hj, hc, fun i2 h1 h2 => by omega⟩
  | case2 j hj s hc ih =>
    intro i h
    rw [firstFreeAux] at h
    simp only [dif_pos hj, hc] at h
    obtain ⟨h1, h2, h3, h4⟩ := ih i h
    refine ⟨by omega, h2, h3, fun i2 hi2 hi2b => ?_⟩
    by_cases hji : i2 = j
    · subst hji
      rw [hc]
      simp
    · exact h4 i2 (by omega) hi2b
  | case3 j hj =>
    intro i h
    rw [firstFreeAux] at h
    simp [hj] at h

theorem firstFreeAux_none (ovf : Overflow V) (hsh budget : Nat) :
    ∀ j, firstFreeAux ovf hsh budget j = none →
      ∀ i2, j ≤ i2 → i2 < budget →
        ovf.slots.getD (probeIdx ovf hsh i2) none ≠ none := by
  intro j
  induction j using firstFreeAux.induct ovf hsh budget with
  | case1 j hj hc =>
    intro h
    rw [firstFreeAux] at h
    simp only [dif_pos hj, hc] at h
    simp at h
  | case2 j hj s hc ih =>
    intro h i2 hi2 hi2b
    rw [firstFreeAux] at h
    simp only [dif_pos hj, hc] at h
    by_cases hji : i2 = j
    · subst hji
      rw [hc]
      simp
    · exact ih h i2 (by omega) hi2b
  | case3 j hj =>
    intro h i2 hi2 hi2b
    omega

theorem lookupAux_none_of_keyfree (ovf : Overflow V) (hsh : Nat) (k : Key)
    (hfree : keyCountL ovf.slots k = 0) (budget : Nat) :
    ∀ i, lookupAux ovf hsh k budget i = none := by
  intro i
  induction i using lookupAux.induct ovf hsh k budget with
  | case1 i hi hc =>
    rw [lookupAux]
    simp only [dif_pos hi, hc]
  | case2 i hi s hc hk =>
    exact absurd hk (keyfree_cell ovf.slots k hfree _ s hc)
  | case3 i hi s hc hk ih =>
    rw [lookupAux]
    simp only [dif_pos hi, hc, if_neg hk]
    exact ih
  | case4 i hi =>
    rw [lookupAux]
    simp [hi]

theorem lookupAux_some (ovf : Overflow V) (hsh : Nat) (k : Key) (budget : Nat) :
    ∀ i s, lookupAux ovf hsh k budget i = some s →
      s.key = k ∧ ∃ i0, i ≤ i0 ∧ i0 < budget ∧
        ovf.slots.getD (probeIdx ovf hsh i0) none = some s := by
  intro i
  induction i using lookupAux.induct ovf hsh k budget with
  | case1 i hi hc =>
    intro s h
    rw [lookupAux] at h
    simp only [dif_pos hi, hc] at h
    simp at h
  | case2 i hi s hc hk =>
    intro s2 h
    rw [lookupAux] at h
    simp only [dif_pos hi, hc, if_pos hk] at h
    cases h
    exact ⟨hk, i, le_refl i, hi, hc⟩
  | case3 i hi s hc hk ih =>
    intro s2 h
    rw [lookupAux] at h
    simp only [dif_pos hi, hc, if_neg hk] at h
    obtain ⟨hk2, i0, h1, h2, h3⟩ := ih s2 h
    exact ⟨hk2, i0, by omega, h2, h3⟩
  | case4 i hi =>
    intro s h
    rw [lookupAux] at h
    simp [hi] at h

theorem lookupAux_congr (ovf ovf2 : Overflow V) (hslots : ovf2.slots = ovf.slots)
    (hseed : ovf2.seed = ovf.seed) (hsf : ovf2.seedFn = ovf.seedFn)
    (hnf : ovf2.nextFn = ovf.nextFn) (hsh : Nat) (k : Key) (budget : Nat) :
    ∀ i, lookupAux ovf2 hsh k budget i = lookupAux ovf hsh k budget i := by
  have hidx := probeIdx_congr ovf ovf2 (by rw [hslots]) hseed hsf hnf hsh
  intro i
  induction i using lookupAux.induct ovf hsh k budget with
  | case1 i hi hc =>
    conv_lhs => rw [lookupAux]
    conv_rhs => rw [lookupAux]
    simp only [dif_pos hi, hc, hidx, hslots]
  | case2 i hi s hc hk =>
    conv_lhs => rw [lookupAux]
    conv_rhs => rw [lookupAux]
    simp only [dif_pos hi, hc, hidx, hslots, if_pos hk]
  | case3 i hi s hc hk ih =>
    conv_lhs => rw [lookupAux]
    conv_rhs => rw [lookupAux]
    simp only [dif_pos hi, hc, hidx, hslots, if_neg hk]
    exact ih
  | case4 i hi =>
    conv_lhs => rw [lookupAux]
    conv_rhs => rw [lookupAux]
    simp [hi]

theorem overflowUniformLookup_congr (ovf ovf2 : Overflow V)
    (hslots : ovf2.slots = ovf.slots) (hll : ovf2.loglogn = ovf.loglogn)
    (hseed : ovf2.seed = ovf.seed) (hsf : ovf2.seedFn = ovf.seedFn)
    (hnf : ovf2.nextFn = ovf.nextFn) (hsh : Nat) (k : Key) (fullProbe : Bool) :
    overflowUniformLookup ovf2 hsh k fullProbe =
      overflowUniformLookup ovf hsh k fullProbe := by
  rw [overflowUniformLookup, overflowUniformLookup]
  have hb : probeBudget ovf2 fullProbe = probeBudget ovf fullProbe := by
    rw [probeBudget, probeBudget, hslots, hll]
  rw [hb, lookupAux_congr ovf ovf2 hslots hseed hsf hnf hsh k _ 0]

theorem lookupAux_extendAvoid_some (k : Key) (ovf ovf2 : Overflow V)
    (hext : ExtendAvoid k ovf.slots ovf2.slots) (hseed : ovf2.seed = ovf.seed)
    (hsf : ovf2.seedFn = ovf.seedFn) (hnf : ovf2.nextFn = ovf.nextFn)
    (hsh budget : Nat) :
    ∀ i s, lookupAux ovf hsh k budget i = some s →
      lookupAux ovf2 hsh k budget i = some s := by
  have hidx := probeIdx_congr ovf ovf2 hext.1.symm hseed hsf hnf hsh
  intro i
  induction i using lookupAux.induct ovf hsh k budget with
  | case1 i hi hc =>
    intro s h
    rw [lookupAux] at h
    simp only [dif_pos hi, hc] at h
    simp at h
  | case2 i hi s hc hk =>
    intro s2 h
    rw [lookupAux] at h
    simp only [dif_pos hi, hc, if_pos hk] at h
    have hc2 : ovf2.slots.getD (probeIdx ovf hsh i) none = some s := by
      rcases hext.2 (probeIdx ovf hsh i) with hsame | ⟨hnone, _, _, _⟩
      · rw [← hsame]; exact hc
      · rw [hc] at hnone; exact absurd hnone (by simp)
    rw [lookupAux]
    simp only [dif_pos hi, hidx, hc2, if_pos hk]
    exact h
  | case3 i hi s hc hk ih =>
    intro s2 h
    rw [lookupAux] at h
    simp only [dif_pos hi, hc, if_neg hk] at h
    have hc2 : ovf2.slots.getD (probeIdx ovf hsh i) none = some s := by
      rcases hext.2 (probeIdx ovf hsh i) with hsame | ⟨hnone, _, _, _⟩
      · rw [← hsame]; exact hc
      · rw [hc] at hnone; exact absurd hnone (by simp)
    rw [lookupAux]
    simp only [dif_pos hi, hidx, hc2, if_neg hk]
    exact ih s2 h
  | case4 i hi =>
    intro s h
    rw [lookupAux] at h
    simp [hi] at h

theorem overflowUniform_roundtrip (ovf : Overflow V) (hsh : Nat) (k : Key)
    (v : V) (fullProbe : Bool) (hlen : 0 < ovf.slots.length)
    (hfree : keyCountL ovf.slots k = 0) (ovf2 : Overflow V)
    (hins : overflowUniformInsert ovf hsh k v fullProbe = (ovf2, true)) :
    overflowUniformLookup ovf2 hsh k fullProbe = some ⟨k, v⟩ := by
  rw [overflowUniformInsert] at hins
  cases hff : firstFreeAux ovf hsh (probeBudget ovf fullProbe) 0 with
  | none => rw [hff] at hins; simp at hins
  | some i =>
    rw [hff] at hins
    simp only [Prod.mk.injEq] at hins
    obtain ⟨hovf2, _⟩ := hins
    obtain ⟨_, hib, hcell, hocc⟩ :=
      firstFreeAux_some ovf hsh (probeBudget ovf fullProbe) 0 i hff
    have hpi : probeIdx ovf hsh i < ovf.slots.length := by
      cases i with
      | zero => rw [probeIdx]; exact Nat.mod_lt _ hlen
      | succ n => rw [probeIdx]; exact Nat.mod_lt _ hlen
    subst hovf2
    have hlen2 : (ovf.slots.set (probeIdx ovf hsh i) (some ⟨k, v⟩)).length =
        ovf.slots.length := by simp
    have hidx : ∀ i2, probeIdx { ovf with
        slots := ovf.slots.set (probeIdx ovf hsh i) (some ⟨k, v⟩),
        rnd := rngState ovf (seedState ovf hsh) i } hsh i2 =
        probeIdx ovf hsh i2 := by
      refine probeIdx_congr ovf _ ?_ ?_ ?_ ?_ hsh <;> simp
    have hbud : probeBudget { ovf with
        slots := ovf.slots.set (probeIdx ovf hsh i) (some ⟨k, v⟩),
        rnd := rngState ovf (seedState ovf hsh) i } fullProbe =
        probeBudget ovf fullProbe := by
      rw [probeBudget, probeBudget]
      simp
    rw [overflowUniformLookup, hbud]
    -- scan reaches step i and finds the fresh slot
    have main : ∀ n j, i - j ≤ n → j ≤ i →
        lookupAux { ovf with
          slots := ovf.slots.set (probeIdx ovf hsh i) (some ⟨k, v⟩),
          rnd := rngState ovf (seedState ovf hsh) i } hsh k
          (probeBudget ovf fullProbe) j = some ⟨k, v⟩ := by
      intro n
      induction n with
      | zero =>
        intro j hn hji
        have hji2 : j = i := by omega
        subst hji2
        rw [lookupAux]
        simp only [dif_pos hib, hidx]
        rw [getD_set_self _ _ _ _ hpi]
        simp
      | succ n ih =>
        intro j hn hji
        by_cases hji2 : j = i
        · subst hji2
          rw [lookupAux]
          simp only [dif_pos hib, hidx]
          rw [getD_set_self _ _ _ _ hpi]
          simp
        · have hjlt : j < i := by omega
          have hoccj := hocc j (Nat.zero_le j) hjlt
          have hne : probeIdx ovf hsh j ≠ probeIdx ovf hsh i := by
            intro heq
            rw [heq, hcell] at hoccj
            exact hoccj rfl
          cases hcj : ovf.slots.getD (probeIdx ovf hsh j) none with
          | none => exact absurd hcj hoccj
          | some s =>
            have hkey : s.key ≠ k := keyfree_cell ovf.slots k hfree _ s hcj
            rw [lookupAux]
            simp only [dif_pos (by omega : j < probeBudget ovf fullProbe), hidx]
            rw [getD_set_ne _ _ _ _ _ (Ne.symm hne), hcj]
            simp only [if_neg hkey]
            exact ih (j + 1) (by omega) (by omega)
    exact main i 0 (by omega) (Nat.zero_le i)

theorem overflowUniformInsert_counts (ovf : Overflow V) (hsh : Nat) (k : Key)
    (v : V) (fullProbe : Bool) (hlen : 0 < ovf.slots.length)
    (ovf2 : Overflow V)
    (hins : overflowUniformInsert ovf hsh k v fullProbe = (ovf2, true)) :
    ovf2.slots.length = ovf.slots.length ∧
    keyCountL ovf2.slots k = keyCountL ovf.slots k + 1 ∧
    (∀ k2, k2 ≠ k → keyCountL ovf2.slots k2 = keyCountL ovf.slots k2) ∧
    (∀ k2, k2 ≠ k → ExtendAvoid k2 ovf.slots ovf2.slots) ∧
    ovf2.loglogn = ovf.loglogn ∧ ovf2.seed = ovf.seed ∧
    ovf2.seedFn = ovf.seedFn ∧ ovf2.nextFn = ovf.nextFn := by
  rw [overflowUniformInsert] at hins
  cases hff : firstFreeAux ovf hsh (probeBudget ovf fullProbe) 0 with
  | none => rw [hff] at hins; simp at hins
  | some i =>
    rw [hff] at hins
    simp only [Prod.mk.injEq] at hins
    obtain ⟨hovf2, _⟩ := hins
    obtain ⟨_, hib, hcell, _⟩ :=
      firstFreeAux_some ovf hsh (probeBudget ovf fullProbe) 0 i hff
    have hpi : probeIdx ovf hsh i < ovf.slots.length := by
      cases i with
      | zero => rw [probeIdx]; exact Nat.mod_lt _ hlen
      | succ n => rw [probeIdx]; exact Nat.mod_lt _ hlen
    subst hovf2
    refine ⟨by simp, ?_, ?_, ?_, rfl, rfl, rfl, rfl⟩
    · rw [keyCountL_set_of_none ovf.slots _ ⟨k, v⟩ hcell hpi k, if_pos rfl]
    · intro k2 hk2
      rw [keyCountL_set_of_none ovf.slots _ ⟨k, v⟩ hcell hpi k2,
        if_neg (by simpa using Ne.symm hk2)]
      omega
    · intro k2 hk2
      exact ExtendAvoid.of_set k2 ovf.slots _ ⟨k, v⟩ hcell
        (by simpa using Ne.symm hk2)

theorem overflowUniformInsert_fail (ovf : Overflow V) (hsh : Nat) (k : Key)
    (v : V) (fullProbe : Bool) (ovf2 : Overflow V)
    (hins : overflowUniformInsert ovf hsh k v fullProbe = (ovf2, false)) :
    ovf2.slots = ovf.slots ∧ ovf2.loglogn = ovf.loglogn ∧
    ovf2.seed = ovf.seed ∧ ovf2.seedFn = ovf.seedFn ∧
    ovf2.nextFn = ovf.nextFn := by
  rw [overflowUniformInsert] at hins
  cases hff : firstFreeAux ovf hsh (probeBudget ovf fullProbe) 0 with
  | none =>
    rw [hff] at hins
    simp only [Prod.mk.injEq] at hins
    obtain ⟨hovf2, _⟩ := hins
    subst hovf2
    exact ⟨rfl, rfl, rfl, rfl, rfl⟩
  | some i =>
    rw [hff] at hins
    simp at hins

/-! ### Two-choice overflow lemmas -/

theorem tcBucket_add_le (ovf : Overflow V) (hsh : Nat)
    (hB : 0 < tcBucketSize ovf) (hle : tcBucketSize ovf ≤ ovf.slots.length) :
    tcBucket ovf hsh + tcBucketSize ovf ≤ ovf.slots.length := by
  have hq : 1 ≤ tcBuckets ovf := (Nat.one_le_div_iff hB).mpr hle
  have h1 : hsh % tcBuckets ovf ≤ tcBuckets ovf - 1 :=
    Nat.le_sub_one_of_lt (Nat.mod_lt _ (by omega))
  have h2 : tcBucket ovf hsh ≤ (tcBuckets ovf - 1) * tcBucketSize ovf :=
    Nat.mul_le_mul_right _ h1
  have h3 : (tcBuckets ovf - 1) * tcBucketSize ovf + tcBucketSize ovf =
      tcBuckets ovf * tcBucketSize ovf := by
    have h5 : tcBuckets ovf - 1 + 1 = tcBuckets ovf := by omega
    calc (tcBuckets ovf - 1) * tcBucketSize ovf + tcBucketSize ovf
        = (tcBuckets ovf - 1 + 1) * tcBucketSize ovf := by ring
    _ = tcBuckets ovf * tcBucketSize ovf := by rw [h5]
  have h4 : tcBuckets ovf * tcBucketSize ovf ≤ ovf.slots.length :=
    Nat.div_mul_le_self _ _
  omega

theorem tcInsertAux_some (slots : List (Option (Slot V))) (b1 b2 : Nat)
    (k : Key) (v : V) (B : Nat) :
    ∀ j slots2, tcInsertAux slots b1 b2 k v B j = some slots2 →
      ∃ j0, j ≤ j0 ∧ j0 < B ∧
        (∀ j2, j ≤ j2 → j2 < j0 → slots.getD (b1 + j2) none ≠ none ∧
          slots.getD (b2 + j2) none ≠ none) ∧
        ((slots.getD (b1 + j0) none = none ∧
          slots2 = slots.set (b1 + j0) (some ⟨k, v⟩)) ∨
         (slots.getD (b1 + j0) none ≠ none ∧
          slots.getD (b2 + j0) none = none ∧
          slots2 = slots.set (b2 + j0) (some ⟨k, v⟩))) := by
  intro j
  induction j using tcInsertAux.induct slots b1 b2 k v B with
  | case1 j hj hc1 =>
    intro slots2 h
    rw [tcInsertAux] at h
    simp only [dif_pos hj, hc1] at h
    cases h
    exact ⟨j, le_refl j, hj, fun j2 h1 h2 => by omega, Or.inl ⟨hc1, rfl⟩⟩
  | case2 j hj s1 hc1 hc2 =>
    intro slots2 h
    rw [tcInsertAux] at h
    simp only [dif_pos hj, hc1, hc2] at h
    cases h
    exact ⟨j, le_refl j, hj, fun j2 h1 h2 => by omega,
      Or.inr ⟨by rw [hc1]; simp, hc2, rfl⟩⟩
  | case3 j hj s1 hc1 s2 hc2 ih =>
    intro slots2 h
    rw [tcInsertAux] at h
    simp only [dif_pos hj, hc1, hc2] at h
    obtain ⟨j0, h1, h2, h3, h4⟩ := ih slots2 h
    refine ⟨j0, by omega, h2, fun j2 hj2 hj2b => ?_, h4⟩
    by_cases hjj : j2 = j
    · subst hjj
      exact ⟨by rw [hc1]; simp, by rw [hc2]; simp⟩
    · exact h3 j2 (by omega) hj2b
  | case4 j hj =>
    intro slots2 h
    rw [tcInsertAux] at h
    simp [hj] at h

theorem tcInsertAux_none (slots : List (Option (Slot V))) (b1 b2 : Nat)
    (k : Key) (v : V) (B : Nat) :
    ∀ j, tcInsertAux slots b1 b2 k v B j = none →
      ∀ j2, j ≤ j2 → j2 < B → slots.getD (b1 + j2) none ≠ none ∧
        slots.getD (b2 + j2) none ≠ none := by
  intro j
  induction j using tcInsertAux.induct slots b1 b2 k v B with
  | case1 j hj hc1 =>
    intro h
    rw [tcInsertAux] at h
    simp only [dif_pos hj, hc1] at h
    simp at h
  | case2 j hj s1 hc1 hc2 =>
    intro h
    rw [tcInsertAux] at h
    simp only [dif_pos hj, hc1, hc2] at h
    simp at h
  | case3 j hj s1 hc1 s2 hc2 ih =>
    intro h j2 hj2 hj2b
    rw [tcInsertAux] at h
    simp only [dif_pos hj, hc1, hc2] at h
    by_cases hjj : j2 = j
    · subst hjj
      exact ⟨by rw [hc1]; simp, by rw [hc2]; simp⟩
    · exact ih h j2 (by omega) hj2b
  | case4 j hj =>
    intro h j2 hj2 hj2b
    omega

theorem tcInsertAux_none_of_occupied (slots : List (Option (Slot V)))
    (b1 b2 : Nat) (k : Key) (v : V) (B : Nat)
    (hocc : ∀ j2, j2 < B → slots.getD (b1 + j2) none ≠ none ∧
      slots.getD (b2 + j2) none ≠ none) :
    ∀ j, tcInsertAux slots b1 b2 k v B j = none := by
  intro j
  induction j using tcInsertAux.induct slots b1 b2 k v B with
  | case1 j hj hc1 =>
    exact absurd hc1 (hocc j hj).1
  | case2 j hj s1 hc1 hc2 =>
    exact absurd hc2 (hocc j hj).2
  | case3 j hj s1 hc1 s2 hc2 ih =>
    rw [tcInsertAux]
    simp only [dif_pos hj, hc1, hc2]
    exact ih
  | case4 j hj =>
    rw [tcInsertAux]
    simp [hj]

theorem tcLookupAux_some (slots : List (Option (Slot V))) (b1 b2 : Nat)
    (k : Key) (B : Nat) :
    ∀ j s, tcLookupAux slots b1 b2 k B j = some s →
      s.key = k ∧ ∃ p, slots.getD p none = some s := by
  intro j
  induction j using tcLookupAux.induct slots b1 b2 k B with
  | case1 j hj hc1 =>
    intro s h
    rw [tcLookupAux] at h
    simp only [dif_pos hj, hc1] at h
    simp at h
  | case2 j hj s1 hc1 hk1 =>
    intro s h
    rw [tcLookupAux] at h
    simp only [dif_pos hj, hc1, if_pos hk1] at h
    cases h
    exact ⟨hk1, b1 + j, hc1⟩
  | case3 j hj s1 hc1 hk1 hc2 =>
    intro s h
    rw [tcLookupAux] at h
    simp only [dif_pos hj, hc1, if_neg hk1, hc2] at h
    simp at h
  | case4 j hj s1 hc1 hk1 s2 hc2 hk2 =>
    intro s h
    rw [tcLookupAux] at h
    simp only [dif_pos hj, hc1, if_neg hk1, hc2, if_pos hk2] at h
    cases h
    exact ⟨hk2, b2 + j, hc2⟩
  | case5 j hj s1 hc1 hk1 s2 hc2 hk2 ih =>
    intro s h
    rw [tcLookupAux] at h
    simp only [dif_pos hj, hc1, if_neg hk1, hc2, if_neg hk2] at h
    exact ih s h
  | case6 j hj =>
    intro s h
    rw [tcLookupAux] at h
    simp [hj] at h

theorem tcLookupAux_none_of_keyfree (slots : List (Option (Slot V)))
    (b1 b2 : Nat) (k : Key) (B : Nat)
    (hfree : keyCountL slots k = 0) (j : Nat) :
    tcLookupAux slots b1 b2 k B j = none := by
  cases hres : tcLookupAux slots b1 b2 k B j with
  | none => rfl
  | some s =>
    obtain ⟨hk, p, hp⟩ := tcLookupAux_some slots b1 b2 k B j s hres
    exact absurd hk (keyfree_cell slots k hfree p s hp)

theorem tcLookupAux_extendAvoid_some (k : Key)
    (slots slots2 : List (Option (Slot V)))
    (hext : ExtendAvoid k slots slots2) (b1 b2 : Nat) (B : Nat) :
    ∀ j s, tcLookupAux slots b1 b2 k B j = some s →
      tcLookupAux slots2 b1 b2 k B j = some s := by
  intro j
  induction j using tcLookupAux.induct slots b1 b2 k B with
  | case1 j hj hc1 =>
    intro s h
    rw [tcLookupAux] at h
    simp only [dif_pos hj, hc1] at h
    simp at h
  | case2 j hj s1 hc1 hk1 =>
    intro s h
    rw [tcLookupAux] at h
    simp only [dif_pos hj, hc1, if_pos hk1] at h
    have hc1b : slots2.getD (b1 + j) none = some s1 := by
      rcases hext.2 (b1 + j) with hsame | ⟨hnone, _, _, _⟩
      · rw [← hsame]; exact hc1
      · rw [hc1] at hnone; exact absurd hnone (by simp)
    rw [tcLookupAux]
    simp only [dif_pos hj, hc1b, if_pos hk1]
    exact h
  | case3 j hj s1 hc1 hk1 hc2 =>
    intro s h
    rw [tcLookupAux] at h
    simp only [dif_pos hj, hc1, if_neg hk1, hc2] at h
    simp at h
  | case4 j hj s1 hc1 hk1 s2 hc2 hk2 =>
    intro s h
    rw [tcLookupAux] at h
    simp only [dif_pos hj, hc1, if_neg hk1, hc2, if_pos hk2] at h
    have hc1b : slots2.getD (b1 + j) none = some s1 := by
      rcases hext.2 (b1 + j) with hsame | ⟨hnone, _, _, _⟩
      · rw [← hsame]; exact hc1
      · rw [hc1] at hnone; exact absurd hnone (by simp)
    have hc2b : slots2.getD (b2 + j) none = some s2 := by
      rcases hext.2 (b2 + j) with hsame | ⟨hnone, _, _, _⟩
      · rw [← hsame]; exact hc2
      · rw [hc2] at hnone; exact absurd hnone (by simp)
    rw [tcLookupAux]
    simp only [dif_pos hj, hc1b, if_neg hk1, hc2b, if_pos hk2]
    exact h
  | case5 j hj s1 hc1 hk1 s2 hc2 hk2 ih =>
    intro s h
    rw [tcLookupAux] at h
    simp only [dif_pos hj, hc1, if_neg hk1, hc2, if_neg hk2] at h
    have hc1b : slots2.getD (b1 + j) none = some s1 := by
      rcases hext.2 (b1 + j) with hsame | ⟨hnone, _, _, _⟩
      · rw [← hsame]; exact hc1
      · rw [hc1] at hnone; exact absurd hnone (by simp)
    have hc2b : slots2.getD (b2 + j) none = some s2 := by
      rcases hext.2 (b2 + j) with hsame | ⟨hnone, _, _, _⟩
      · rw [← hsame]; exact hc2
      · rw [hc2] at hnone; exact absurd hnone (by simp)
    rw [tcLookupAux]
    simp only [dif_pos hj, hc1b, if_neg hk1, hc2b, if_neg hk2]
    exact ih s h
  | case6 j hj =>
    intro s h
    rw [tcLookupAux] at h
    simp [hj] at h

theorem tcLookup_after_insert (slots slots2 : List (Option (Slot V)))
    (b1 b2 B : Nat) (k : Key) (v : V)
    (hb1 : b1 + B ≤ slots.length) (hb2 : b2 + B ≤ slots.length)
    (hfree : keyCountL slots k = 0)
    (hins : tcInsertAux slots b1 b2 k v B 0 = some slots2) :
    tcLookupAux slots2 b1 b2 k B 0 = some ⟨k, v⟩ := by
  obtain ⟨j0, _, hj0, hocc, hcase⟩ := tcInsertAux_some slots b1 b2 k v B 0 slots2 hins
  have main : ∀ n j, j0 - j ≤ n → j ≤ j0 →
      tcLookupAux slots2 b1 b2 k B j = some ⟨k, v⟩ := by
    intro n
    induction n with
    | zero =>
      intro j hn hj
      have hjeq : j = j0 := by omega
      rw [hjeq]
      rcases hcase with ⟨hempty, hset⟩ | ⟨hocc1, hempty, hset⟩
      · subst hset
        rw [tcLookupAux]
        simp only [dif_pos hj0]
        rw [getD_set_self _ _ _ _ (by omega)]
        simp
      · subst hset
        have hne : b1 + j0 ≠ b2 + j0 := by
          intro heq
          rw [heq, hempty] at hocc1
          exact hocc1 rfl
        cases hc1 : slots.getD (b1 + j0) none with
        | none => exact absurd hc1 hocc1
        | some s1 =>
          have hk1 : s1.key ≠ k := keyfree_cell slots k hfree _ s1 hc1
          rw [tcLookupAux]
          simp only [dif_pos hj0]
          rw [getD_set_ne _ _ _ _ _ (Ne.symm hne), hc1]
          simp only [if_neg hk1]
          rw [getD_set_self _ _ _ _ (by omega)]
          simp
    | succ n ih =>
      intro j hn hj
      by_cases hjj : j = j0
      · rw [hjj]
        exact ih j0 (by omega) (le_refl j0)
      · have hjlt : j < j0 := by omega
        obtain ⟨hocc1, hocc2⟩ := hocc j (Nat.zero_le j) hjlt
        have hsetpos : ∃ p, slots.getD p none = none ∧
            slots2 = slots.set p (some ⟨k, v⟩) := by
          rcases hcase with ⟨hempty, hset⟩ | ⟨_, hempty, hset⟩
          · exact ⟨b1 + j0, hempty, hset⟩
          · exact ⟨b2 + j0, hempty, hset⟩
        obtain ⟨p, hpempty, hset⟩ := hsetpos
        subst hset
        cases hc1 : slots.getD (b1 + j) none with
        | none => exact absurd hc1 hocc1
        | some s1 =>
          cases hc2 : slots.getD (b2 + j) none with
          | none => exact absurd hc2 hocc2
          | some s2 =>
            have hk1 : s1.key ≠ k := keyfree_cell slots k hfree _ s1 hc1
            have hk2 : s2.key ≠ k := keyfree_cell slots k hfree _ s2 hc2
            have hne1 : p ≠ b1 + j := by
              intro heq
              rw [← heq, hpempty] at hc1
              simp at hc1
            have hne2 : p ≠ b2 + j := by
              intro heq
              rw [← heq, hpempty] at hc2
              simp at hc2
            rw [tcLookupAux]
            simp only [dif_pos (by omega : j < B)]
            rw [getD_set_ne _ _ _ _ _ hne1, hc1]
            simp only [if_neg hk1]
            rw [getD_set_ne _ _ _ _ _ hne2, hc2]
            simp only [if_neg hk2]
            exact ih (j + 1) (by omega) (by omega)
  exact main j0 0 (by omega) (Nat.zero_le j0)

theorem tcInsert_counts (slots slots2 : List (Option (Slot V)))
    (b1 b2 B : Nat) (k : Key) (v : V)
    (hb1 : b1 + B ≤ slots.length) (hb2 : b2 + B ≤ slots.length)
    (hins : tcInsertAux slots b1 b2 k v B 0 = some slots2) :
    slots2.length = slots.length ∧
    keyCountL slots2 k = keyCountL slots k + 1 ∧
    (∀ k2, k2 ≠ k → keyCountL slots2 k2 = keyCountL slots k2) ∧
    (∀ k2, k2 ≠ k → ExtendAvoid k2 slots slots2) := by
  obtain ⟨j0, _, hj0, _, hcase⟩ := tcInsertAux_some slots b1 b2 k v B 0 slots2 hins
  have hsetpos : ∃ p, p < slots.length ∧ slots.getD p none = none ∧
      slots2 = slots.set p (some ⟨k, v⟩) := by
    rcases hcase with ⟨hempty, hset⟩ | ⟨_, hempty, hset⟩
    · exact ⟨b1 + j0, by omega, hempty, hset⟩
    · exact ⟨b2 + j0, by omega, hempty, hset⟩
  obtain ⟨p, hp, hpempty, hset⟩ := hsetpos
  subst hset
  refine ⟨by simp, ?_, ?_, ?_⟩
  · rw [keyCountL_set_of_none slots _ ⟨k, v⟩ hpempty hp k, if_pos rfl]
  · intro k2 hk2
    rw [keyCountL_set_of_none slots _ ⟨k, v⟩ hpempty hp k2,
      if_neg (by simpa using Ne.symm hk2)]
    omega
  · intro k2 hk2
    exact ExtendAvoid.of_set k2 slots _ ⟨k, v⟩ hpempty
      (by simpa using Ne.symm hk2)

/-! ### Table-level lemmas -/

theorem keyCount_def (t : HashTable V) (k : Key) :
    keyCount t k = banksKeyCount t.Banks k +
      keyCountL t.Overflow1.slots k + keyCountL t.Overflow2.slots k := rfl

theorem forall₂_len_transfer (banks banks2 : List (BankData V))
    (hfa : List.Forall₂ (fun d d2 : BankData V => d.length = d2.length)
      banks banks2) (β : Nat) (hlen : ∀ d ∈ banks, β ≤ d.length) :
    ∀ d2 ∈ banks2, β ≤ d2.length := by
  induction hfa with
  | nil => simp
  | @cons d d2 rest rest2 h1 h2 ih =>
    intro x hx
    rcases List.mem_cons.mp hx with hx | hx
    · subst hx
      rw [← h1]
      exact hlen d (by simp)
    · exact ih (fun y hy => hlen y (by simp [hy])) x hx

theorem banksKeyCount_extendAvoid (k : Key)
    (banks banks2 : List (BankData V))
    (hfa : List.Forall₂ (ExtendAvoid k) banks banks2)
    (hfree : banksKeyCount banks k = 0) : banksKeyCount banks2 k = 0 := by
  induction hfa with
  | nil => simp [banksKeyCount]
  | @cons d d2 rest rest2 h1 h2 ih =>
    rw [banksKeyCount_cons] at hfree ⊢
    have h3 : keyCountL d k = 0 := by omega
    have h4 : banksKeyCount rest k = 0 := by omega
    rw [ExtendAvoid.keyCountL_eq_zero k d d2 h1 h3, ih h4]

theorem tcBucket_congr (ovf ovf2 : Overflow V)
    (hlen : ovf2.slots.length = ovf.slots.length)
    (hll : ovf2.loglogn = ovf.loglogn) (hsh : Nat) :
    tcBucket ovf2 hsh = tcBucket ovf hsh := by
  unfold tcBucket tcBuckets tcBucketSize
  rw [hlen, hll]

/-- Every slot a funnel `lookup` returns carries the looked-up key. -/
theorem lookup_some_key (t : HashTable V) (k : Key) (s : Slot V)
    (h : lookup t k = some s) : s.key = k := by
  rw [lookup] at h
  cases hbl : bankLookup t.BucketSize (t.Hasher k) k t.Banks with
  | some s2 =>
    rw [hbl] at h
    have hk := (bankLookup_some t.BucketSize (t.Hasher k) k t.Banks s2 hbl).1
    cases h
    exact hk
  | none =>
    rw [hbl] at h
    by_cases h1 : 0 < t.Overflow1.slots.length
    · rw [if_pos h1] at h
      cases hul : overflowUniformLookup t.Overflow1 (t.Hasher k) k
          (t.Overflow2.slots.length == 0) with
      | some s2 =>
        rw [hul] at h
        have hk := (lookupAux_some t.Overflow1 (t.Hasher k) k _ 0 s2 hul).1
        cases h
        exact hk
      | none =>
        rw [hul] at h
        by_cases h2 : 0 < t.Overflow2.slots.length
        · rw [if_pos h2] at h
          exact (tcLookupAux_some t.Overflow2.slots _ _ k _ 0 s h).1
        · rw [if_neg h2] at h
          simp at h
    · rw [if_neg h1] at h
      by_cases h2 : 0 < t.Overflow2.slots.length
      · rw [if_pos h2] at h
        exact (tcLookupAux_some t.Overflow2.slots _ _ k _ 0 s h).1
      · rw [if_neg h2] at h
        simp at h

/-- Persistence of a successful lookup under the insert-only evolution of
every structure (fill empty cells only, never with the looked-up key),
provided the key occupies exactly one slot. -/
theorem lookup_preserved (t t2 : HashTable V) (k2 : Key) (s : Slot V)
    (hH : t2.Hasher = t.Hasher) (hB : t2.BucketSize = t.BucketSize)
    (hbanks : List.Forall₂ (ExtendAvoid k2) t.Banks t2.Banks)
    (hovf1 : ExtendAvoid k2 t.Overflow1.slots t2.Overflow1.slots)
    (hovf1ll : t2.Overflow1.loglogn = t.Overflow1.loglogn)
    (hovf1s : t2.Overflow1.seed = t.Overflow1.seed)
    (hovf1sf : t2.Overflow1.seedFn = t.Overflow1.seedFn)
    (hovf1nf : t2.Overflow1.nextFn = t.Overflow1.nextFn)
    (hovf2 : ExtendAvoid k2 t.Overflow2.slots t2.Overflow2.slots)
    (hovf2ll : t2.Overflow2.loglogn = t.Overflow2.loglogn)
    (hovf2s : t2.Overflow2.seed = t.Overflow2.seed)
    (hcnt : keyCount t k2 = 1)
    (hfound : lookup t k2 = some s) : lookup t2 k2 = some s := by
  have hlen1 : t2.Overflow1.slots.length = t.Overflow1.slots.length :=
    hovf1.1.symm
  have hlen2 : t2.Overflow2.slots.length = t.Overflow2.slots.length :=
    hovf2.1.symm
  rw [lookup] at hfound
  rw [lookup, hH, hB]
  cases hbl : bankLookup t.BucketSize (t.Hasher k2) k2 t.Banks with
  | some s2 =>
    rw [hbl] at hfound
    rw [bankLookup_extendAvoid t.BucketSize (t.Hasher k2) k2 t.Banks t2.Banks
      hbanks, hbl]
    exact hfound
  | none =>
    rw [hbl] at hfound
    rw [bankLookup_extendAvoid t.BucketSize (t.Hasher k2) k2 t.Banks t2.Banks
      hbanks, hbl]
    have hfp : (t2.Overflow2.slots.length == 0) =
        (t.Overflow2.slots.length == 0) := by rw [hlen2]
    by_cases h1 : 0 < t.Overflow1.slots.length
    · rw [if_pos h1] at hfound
      rw [if_pos (by omega : 0 < t2.Overflow1.slots.length)]
      cases hul : overflowUniformLookup t.Overflow1 (t.Hasher k2) k2
          (t.Overflow2.slots.length == 0) with
      | some s2 =>
        rw [hul] at hfound
        have hul2 : overflowUniformLookup t2.Overflow1 (t.Hasher k2) k2
            (t2.Overflow2.slots.length == 0) = some s2 := by
          rw [overflowUniformLookup, hfp]
          have hbud : probeBudget t2.Overflow1
              (t.Overflow2.slots.length == 0) =
              probeBudget t.Overflow1 (t.Overflow2.slots.length == 0) := by
            rw [probeBudget, probeBudget, hlen1, hovf1ll]
          rw [hbud]
          exact lookupAux_extendAvoid_some k2 t.Overflow1 t2.Overflow1 hovf1
            hovf1s hovf1sf hovf1nf (t.Hasher k2) _ 0 s2 hul
        rw [hul2]
        exact hfound
      | none =>
        rw [hul] at hfound
        by_cases h2 : 0 < t.Overflow2.slots.length
        · rw [if_pos h2] at hfound
          -- the unique slot with key k2 lives in overflow2
          have hk2s : s.key = k2 :=
            (tcLookupAux_some t.Overflow2.slots _ _ k2 _ 0 s hfound).1
          have hovf2pos : 0 < keyCountL t.Overflow2.slots k2 := by
            obtain ⟨_, p, hp⟩ :=
              tcLookupAux_some t.Overflow2.slots _ _ k2 _ 0 s hfound
            exact keyCountL_pos_of_cell t.Overflow2.slots p s k2 hp hk2s
          have hovf1free : keyCountL t.Overflow1.slots k2 = 0 := by
            rw [keyCount_def] at hcnt
            omega
          have hul2 : overflowUniformLookup t2.Overflow1 (t.Hasher k2) k2
              (t2.Overflow2.slots.length == 0) = none := by
            rw [overflowUniformLookup]
            exact lookupAux_none_of_keyfree t2.Overflow1 (t.Hasher k2) k2
              (ExtendAvoid.keyCountL_eq_zero k2 _ _ hovf1 hovf1free) _ 0
          rw [hul2, if_pos (by omega : 0 < t2.Overflow2.slots.length)]
          rw [overflowTwoChoiceLookup] at hfound ⊢
          rw [hovf1s, hovf2s,
            tcBucket_congr t.Overflow2 t2.Overflow2 hlen2 hovf2ll,
            tcBucket_congr t.Overflow2 t2.Overflow2 hlen2 hovf2ll]
          have hBsz : tcBucketSize t2.Overflow2 = tcBucketSize t.Overflow2 := by
            unfold tcBucketSize
            rw [hovf2ll]
          rw [hBsz]
          exact tcLookupAux_extendAvoid_some k2 t.Overflow2.slots
            t2.Overflow2.slots hovf2 _ _ _ 0 s hfound
        · rw [if_neg h2] at hfound
          simp at hfound
    · rw [if_neg h1] at hfound
      rw [if_neg (by omega : ¬ 0 < t2.Overflow1.slots.length)]
      by_cases h2 : 0 < t.Overflow2.slots.length
      · rw [if_pos h2] at hfound
        have hk2s : s.key = k2 :=
          (tcLookupAux_some t.Overflow2.slots _ _ k2 _ 0 s hfound).1
        rw [if_pos (by omega : 0 < t2.Overflow2.slots.length)]
        rw [overflowTwoChoiceLookup] at hfound ⊢
        rw [hovf1s, hovf2s,
          tcBucket_congr t.Overflow2 t2.Overflow2 hlen2 hovf2ll,
          tcBucket_congr t.Overflow2 t2.Overflow2 hlen2 hovf2ll]
        have hBsz : tcBucketSize t2.Overflow2 = tcBucketSize t.Overflow2 := by
          unfold tcBucketSize
          rw [hovf2ll]
        rw [hBsz]
        exact tcLookupAux_extendAvoid_some k2 t.Overflow2.slots
          t2.Overflow2.slots hovf2 _ _ _ 0 s hfound
      · rw [if_neg h2] at hfound
        simp at hfound

/-- Effect of one successful `insert` into a table having no slot with the
inserted key: the structure stays well formed, the key is found with its
value, it now occupies exactly one slot, other keys' slot counts are
untouched, and every other singly-stored key keeps its lookup result. -/
theorem insert_step (t : HashTable V) (k : Key) (v : V)
    (hWF : WF t) (hfree : keyCount t k = 0)
    (t2 : HashTable V) (hins : insert t k v = (t2, true)) :
    WF t2 ∧ Get t2 k = some v ∧ keyCount t2 k = 1 ∧
    (∀ k2, k2 ≠ k → keyCount t2 k2 = keyCount t k2) ∧
    (∀ k2 v2, k2 ≠ k → Get t k2 = some v2 → keyCount t k2 = 1 →
      Get t2 k2 = some v2) := by
  obtain ⟨hβ, hblen, hwtc⟩ := hWF
  have hbfree : ∀ d ∈ t.Banks, keyCountL d k = 0 := by
    rw [keyCount_def] at hfree
    exact (banksKeyCount_eq_zero t.Banks k).mp (by omega)
  have hov1free : keyCountL t.Overflow1.slots k = 0 := by
    rw [keyCount_def] at hfree
    omega
  have hov2free : keyCountL t.Overflow2.slots k = 0 := by
    rw [keyCount_def] at hfree
    omega
  rw [insert] at hins
  cases hbi : bankInsert t.BucketSize (t.Hasher k) k v t.Banks with
  | some banks2 =>
    rw [hbi] at hins
    have ht2 : ({ t with
        Banks := banks2
        Inserts := t.Inserts + 1 } : HashTable V) = t2 :=
      congrArg Prod.fst hins
    have hfH : t2.Hasher = t.Hasher := by rw [← ht2]
    have hfB : t2.BucketSize = t.BucketSize := by rw [← ht2]
    have hfBk : t2.Banks = banks2 := by rw [← ht2]
    have hfO1 : t2.Overflow1 = t.Overflow1 := by rw [← ht2]
    have hfO2 : t2.Overflow2 = t.Overflow2 := by rw [← ht2]
    obtain ⟨hfa, hcnt1, hcnt2⟩ :=
      bankInsert_spec t.BucketSize (t.Hasher k) hβ k v t.Banks banks2 hblen hbi
    have hbl2 : bankLookup t.BucketSize (t.Hasher k) k banks2 =
        some ⟨k, v⟩ :=
      bankLookup_after_insert t.BucketSize (t.Hasher k) hβ k v t.Banks banks2
        hblen hbfree hbi
    refine ⟨⟨?_, ?_, ?_⟩, ?_, ?_, ?_, ?_⟩
    · rw [hfB]
      exact hβ
    · rw [hfB, hfBk]
      exact forall₂_len_transfer t.Banks banks2
        (hfa.imp fun a b hab => hab.1) t.BucketSize hblen
    · rw [hfO2]
      exact hwtc
    · simp only [Get, lookup]
      rw [hfH, hfB, hfBk, hfO1, hfO2, hbl2]
      rfl
    · rw [keyCount_def, hfBk, hfO1, hfO2, hcnt1]
      rw [keyCount_def] at hfree
      omega
    · intro k2 hk2
      rw [keyCount_def, hfBk, hfO1, hfO2, hcnt2 k2 hk2, keyCount_def]
    · intro k2 v2 hk2 hget hcnt
      rw [Get] at hget ⊢
      cases hlk : lookup t k2 with
      | none => rw [hlk] at hget; simp at hget
      | some s =>
        rw [hlk] at hget
        rw [lookup_preserved t t2 k2 s hfH hfB
          (by rw [hfBk]; exact hfa.imp fun a b hab => hab.2 k2 hk2)
          (by rw [hfO1]; exact ExtendAvoid.extRefl k2 _)
          (by rw [hfO1]) (by rw [hfO1]) (by rw [hfO1]) (by rw [hfO1])
          (by rw [hfO2]; exact ExtendAvoid.extRefl k2 _)
          (by rw [hfO2]) (by rw [hfO2]) hcnt hlk]
        exact hget
  | none =>
    rw [hbi] at hins
    by_cases h1 : 0 < t.Overflow1.slots.length
    · rw [if_pos h1] at hins
      cases huni : overflowUniformInsert t.Overflow1 (t.Hasher k) k v
          (t.Overflow2.slots.length == 0) with
      | mk ovf1b okb =>
        rw [huni] at hins
        cases okb with
        | true =>
          have ht2 : ({ t with
              Overflow1 := ovf1b
              Inserts := t.Inserts + 1 } : HashTable V) = t2 :=
            congrArg Prod.fst hins
          have hfH : t2.Hasher = t.Hasher := by rw [← ht2]
          have hfB : t2.BucketSize = t.BucketSize := by rw [← ht2]
          have hfBk : t2.Banks = t.Banks := by rw [← ht2]
          have hfO1 : t2.Overflow1 = ovf1b := by rw [← ht2]
          have hfO2 : t2.Overflow2 = t.Overflow2 := by rw [← ht2]
          obtain ⟨hl1, hc1, hc2, hext1, hll1, hs1, hsf1, hnf1⟩ :=
            overflowUniformInsert_counts t.Overflow1 (t.Hasher k) k v _ h1
              ovf1b huni
          have hbl2 : bankLookup t.BucketSize (t.Hasher k) k t.Banks = none :=
            bankLookup_none_of_keyfree t.BucketSize (t.Hasher k) k t.Banks
              hbfree
          refine ⟨⟨?_, ?_, ?_⟩, ?_, ?_, ?_, ?_⟩
          · rw [hfB]
            exact hβ
          · rw [hfB, hfBk]
            exact hblen
          · rw [hfO2]
            exact hwtc
          · simp only [Get, lookup]
            rw [hfH, hfB, hfBk, hfO1, hfO2, hbl2,
              if_pos (by omega : 0 < ovf1b.slots.length),
              overflowUniform_roundtrip t.Overflow1 (t.Hasher k) k v _ h1
                hov1free ovf1b huni]
            rfl
          · rw [keyCount_def, hfBk, hfO1, hfO2, hc1]
            rw [keyCount_def] at hfree
            omega
          · intro k2 hk2
            rw [keyCount_def, hfBk, hfO1, hfO2, hc2 k2 hk2, keyCount_def]
          · intro k2 v2 hk2 hget hcnt
            rw [Get] at hget ⊢
            cases hlk : lookup t k2 with
            | none => rw [hlk] at hget; simp at hget
            | some s =>
              rw [hlk] at hget
              rw [lookup_preserved t t2 k2 s hfH hfB
                (by rw [hfBk]
                    exact List.forall₂_same.mpr fun x hx =>
                      ExtendAvoid.extRefl k2 x)
                (by rw [hfO1]; exact hext1 k2 hk2)
                (by rw [hfO1]; exact hll1) (by rw [hfO1]; exact hs1)
                (by rw [hfO1]; exact hsf1) (by rw [hfO1]; exact hnf1)
                (by rw [hfO2]; exact ExtendAvoid.extRefl k2 _)
                (by rw [hfO2]) (by rw [hfO2]) hcnt hlk]
              exact hget
        | false =>
          obtain ⟨hsl1, hll1, hs1, hsf1, hnf1⟩ :=
            overflowUniformInsert_fail t.Overflow1 (t.Hasher k) k v _ ovf1b
              huni
          by_cases h2 : 0 < t.Overflow2.slots.length
          · rw [if_pos h2] at hins
            rw [overflowTwoChoiceInsert] at hins
            cases htci : tcInsertAux t.Overflow2.slots
                (tcBucket t.Overflow2 (Nat.xor (t.Hasher k) t.Overflow1.seed))
                (tcBucket t.Overflow2 (Nat.xor (t.Hasher k) t.Overflow2.seed))
                k v (tcBucketSize t.Overflow2) 0 with
            | none =>
              rw [htci] at hins
              exact absurd (congrArg Prod.snd hins) (by simp)
            | some slots2 =>
              rw [htci] at hins
              have ht2 : ({ t with
                  Overflow1 := ovf1b
                  Overflow2 := { t.Overflow2 with slots := slots2 }
                  Inserts := t.Inserts + 1 } : HashTable V) = t2 :=
                congrArg Prod.fst hins
              have hfH : t2.Hasher = t.Hasher := by rw [← ht2]
              have hfB : t2.BucketSize = t.BucketSize := by rw [← ht2]
              have hfBk : t2.Banks = t.Banks := by rw [← ht2]
              have hfO1 : t2.Overflow1 = ovf1b := by rw [← ht2]
              have hfO2 : t2.Overflow2 =
                  { t.Overflow2 with slots := slots2 } := by rw [← ht2]
              have hB0 : 0 < tcBucketSize t.Overflow2 := by
                obtain ⟨j0, _, hj0, _, _⟩ := tcInsertAux_some t.Overflow2.slots
                  _ _ k v (tcBucketSize t.Overflow2) 0 slots2 htci
                omega
              have hb1r := tcBucket_add_le t.Overflow2
                (Nat.xor (t.Hasher k) t.Overflow1.seed) hB0 (hwtc (by omega))
              have hb2r := tcBucket_add_le t.Overflow2
                (Nat.xor (t.Hasher k) t.Overflow2.seed) hB0 (hwtc (by omega))
              obtain ⟨htl, htc1, htc2, htext⟩ := tcInsert_counts
                t.Overflow2.slots slots2 _ _ _ k v hb1r hb2r htci
              have hbl2 : bankLookup t.BucketSize (t.Hasher k) k t.Banks =
                  none :=
                bankLookup_none_of_keyfree t.BucketSize (t.Hasher k) k t.Banks
                  hbfree
              refine ⟨⟨?_, ?_, ?_⟩, ?_, ?_, ?_, ?_⟩
              · rw [hfB]
                exact hβ
              · rw [hfB, hfBk]
                exact hblen
              · rw [hfO2]
                intro hne
                show tcBucketSize { t.Overflow2 with slots := slots2 } ≤
                  slots2.length
                rw [show tcBucketSize { t.Overflow2 with slots := slots2 } =
                  tcBucketSize t.Overflow2 from rfl, htl]
                exact hwtc (by omega)
              · simp only [Get, lookup]
                rw [hfH, hfB, hfBk, hfO1, hfO2, hbl2,
                  if_pos (by rw [hsl1]; omega : 0 < ovf1b.slots.length)]
                have hulb : overflowUniformLookup ovf1b (t.Hasher k) k
                    (({ t.Overflow2 with slots := slots2 }
                      : Overflow V).slots.length == 0) = none := by
                  rw [overflowUniformLookup]
                  refine lookupAux_none_of_keyfree ovf1b (t.Hasher k) k ?_ _ 0
                  rw [hsl1]
                  exact hov1free
                rw [hulb,
                  if_pos (by simpa using (by omega : 0 < slots2.length))]
                rw [overflowTwoChoiceLookup]
                have hbc1 : tcBucket { t.Overflow2 with slots := slots2 }
                    (Nat.xor (t.Hasher k) ovf1b.seed) =
                    tcBucket t.Overflow2
                    (Nat.xor (t.Hasher k) t.Overflow1.seed) := by
                  rw [hs1]
                  refine tcBucket_congr t.Overflow2 _ ?_ ?_ _ <;> simp [htl]
                have hbc2 : tcBucket { t.Overflow2 with slots := slots2 }
                    (Nat.xor (t.Hasher k) t.Overflow2.seed) =
                    tcBucket t.Overflow2
                    (Nat.xor (t.Hasher k) t.Overflow2.seed) := by
                  refine tcBucket_congr t.Overflow2 _ ?_ ?_ _ <;> simp [htl]
                rw [show ({ t.Overflow2 with slots := slots2 }
                  : Overflow V).slots = slots2 from rfl,
                  show ({ t.Overflow2 with slots := slots2 }
                  : Overflow V).seed = t.Overflow2.seed from rfl,
                  show tcBucketSize { t.Overflow2 with slots := slots2 } =
                  tcBucketSize t.Overflow2 from rfl, hbc1, hbc2,
                  tcLookup_after_insert t.Overflow2.slots slots2 _ _ _ k v
                    hb1r hb2r hov2free htci]
                rfl
              · rw [keyCount_def, hfBk, hfO1, hfO2]
                rw [show ({ t.Overflow2 with slots := slots2 }
                  : Overflow V).slots = slots2 from rfl, htc1, hsl1]
                rw [keyCount_def] at hfree
                omega
              · intro k2 hk2
                rw [keyCount_def, hfBk, hfO1, hfO2]
                rw [show ({ t.Overflow2 with slots := slots2 }
                  : Overflow V).slots = slots2 from rfl, htc2 k2 hk2, hsl1,
                  keyCount_def]
              · intro k2 v2 hk2 hget hcnt
                rw [Get] at hget ⊢
                cases hlk : lookup t k2 with
                | none => rw [hlk] at hget; simp at hget
                | some s =>
                  rw [hlk] at hget
                  rw [lookup_preserved t t2 k2 s hfH hfB
                    (by rw [hfBk]
                        exact List.forall₂_same.mpr fun x hx =>
                          ExtendAvoid.extRefl k2 x)
                    (by rw [hfO1, hsl1]; exact ExtendAvoid.extRefl k2 _)
                    (by rw [hfO1]; exact hll1) (by rw [hfO1]; exact hs1)
                    (by rw [hfO1]; exact hsf1) (by rw [hfO1]; exact hnf1)
                    (by rw [hfO2]; exact htext k2 hk2)
                    (by rw [hfO2]) (by rw [hfO2]) hcnt hlk]
                  exact hget
          · rw [if_neg h2] at hins
            exact absurd (congrArg Prod.snd hins) (by simp)
    · rw [if_neg h1] at hins
      by_cases h2 : 0 < t.Overflow2.slots.length
      · rw [if_pos h2] at hins
        rw [overflowTwoChoiceInsert] at hins
        cases htci : tcInsertAux t.Overflow2.slots
            (tcBucket t.Overflow2 (Nat.xor (t.Hasher k) t.Overflow1.seed))
            (tcBucket t.Overflow2 (Nat.xor (t.Hasher k) t.Overflow2.seed))
            k v (tcBucketSize t.Overflow2) 0 with
        | none =>
          rw [htci] at hins
          exact absurd (congrArg Prod.snd hins) (by simp)
        | some slots2 =>
          rw [htci] at hins
          have ht2 : ({ t with
              Overflow1 := t.Overflow1
              Overflow2 := { t.Overflow2 with slots := slots2 }
              Inserts := t.Inserts + 1 } : HashTable V) = t2 :=
            congrArg Prod.fst hins
          have hfH : t2.Hasher = t.Hasher := by rw [← ht2]
          have hfB : t2.BucketSize = t.BucketSize := by rw [← ht2]
          have hfBk : t2.Banks = t.Banks := by rw [← ht2]
          have hfO1 : t2.Overflow1 = t.Overflow1 := by rw [← ht2]
          have hfO2 : t2.Overflow2 =
              { t.Overflow2 with slots := slots2 } := by rw [← ht2]
          have hB0 : 0 < tcBucketSize t.Overflow2 := by
            obtain ⟨j0, _, hj0, _, _⟩ := tcInsertAux_some t.Overflow2.slots
              _ _ k v (tcBucketSize t.Overflow2) 0 slots2 htci
            omega
          have hb1r := tcBucket_add_le t.Overflow2
            (Nat.xor (t.Hasher k) t.Overflow1.seed) hB0 (hwtc (by omega))
          have hb2r := tcBucket_add_le t.Overflow2
            (Nat.xor (t.Hasher k) t.Overflow2.seed) hB0 (hwtc (by omega))
          obtain ⟨htl, htc1, htc2, htext⟩ := tcInsert_counts
            t.Overflow2.slots slots2 _ _ _ k v hb1r hb2r htci
          have hbl2 : bankLookup t.BucketSize (t.Hasher k) k t.Banks = none :=
            bankLookup_none_of_keyfree t.BucketSize (t.Hasher k) k t.Banks
              hbfree
          refine ⟨⟨?_, ?_, ?_⟩, ?_, ?_, ?_, ?_⟩
          · rw [hfB]
            exact hβ
          · rw [hfB, hfBk]
            exact hblen
          · rw [hfO2]
            intro hne
            show tcBucketSize { t.Overflow2 with slots := slots2 } ≤
              slots2.length
            rw [show tcBucketSize { t.Overflow2 with slots := slots2 } =
              tcBucketSize t.Overflow2 from rfl, htl]
            exact hwtc (by omega)
          · simp only [Get, lookup]
            rw [hfH, hfB, hfBk, hfO1, hfO2, hbl2,
              if_neg (by omega : ¬ 0 < t.Overflow1.slots.length),
              if_pos (by simpa using (by omega : 0 < slots2.length))]
            rw [overflowTwoChoiceLookup]
            have hbc1 : tcBucket { t.Overflow2 with slots := slots2 }
                (Nat.xor (t.Hasher k) t.Overflow1.seed) =
                tcBucket t.Overflow2
                (Nat.xor (t.Hasher k) t.Overflow1.seed) := by
              refine tcBucket_congr t.Overflow2 _ ?_ ?_ _ <;> simp [htl]
            have hbc2 : tcBucket { t.Overflow2 with slots := slots2 }
                (Nat.xor (t.Hasher k) t.Overflow2.seed) =
                tcBucket t.Overflow2
                (Nat.xor (t.Hasher k) t.Overflow2.seed) := by
              refine tcBucket_congr t.Overflow2 _ ?_ ?_ _ <;> simp [htl]
            rw [show ({ t.Overflow2 with slots := slots2 }
              : Overflow V).slots = slots2 from rfl,
              show ({ t.Overflow2 with slots := slots2 }
              : Overflow V).seed = t.Overflow2.seed from rfl,
              show tcBucketSize { t.Overflow2 with slots := slots2 } =
              tcBucketSize t.Overflow2 from rfl, hbc1, hbc2,
              tcLookup_after_insert t.Overflow2.slots slots2 _ _ _ k v
                hb1r hb2r hov2free htci]
            rfl
          · rw [keyCount_def, hfBk, hfO1, hfO2]
            rw [show ({ t.Overflow2 with slots := slots2 }
              : Overflow V).slots = slots2 from rfl, htc1]
            rw [keyCount_def] at hfree
            omega
          · intro k2 hk2
            rw [keyCount_def, hfBk, hfO1, hfO2]
            rw [show ({ t.Overflow2 with slots := slots2 }
              : Overflow V).slots = slots2 from rfl, htc2 k2 hk2, keyCount_def]
          · intro k2 v2 hk2 hget hcnt
            rw [Get] at hget ⊢
            cases hlk : lookup t k2 with
            | none => rw [hlk] at hget; simp at hget
            | some s =>
              rw [hlk] at hget
              rw [lookup_preserved t t2 k2 s hfH hfB
                (by rw [hfBk]
                    exact List.forall₂_same.mpr fun x hx =>
                      ExtendAvoid.extRefl k2 x)
                (by rw [hfO1]; exact ExtendAvoid.extRefl k2 _)
                (by rw [hfO1]) (by rw [hfO1]) (by rw [hfO1]) (by rw [hfO1])
                (by rw [hfO2]; exact htext k2 hk2)
                (by rw [hfO2]) (by rw [hfO2]) hcnt hlk]
              exact hget
      · rw [if_neg h2] at hins
        exact absurd (congrArg Prod.snd hins) (by simp)

theorem Fresh.keyCountL_zero (l : List (Option (Slot V)))
    (hF : ∀ c ∈ l, c = none) (k : Key) : keyCountL l k = 0 := by
  rw [keyCountL, List.countP_eq_zero]
  intro a ha
  rw [hF a ha]
  simp [slotHasKey]

theorem Fresh.keyCount_zero (t : HashTable V) (hF : Fresh t) (k : Key) :
    keyCount t k = 0 := by
  obtain ⟨hb, h1, h2⟩ := hF
  rw [keyCount_def]
  have hbz : banksKeyCount t.Banks k = 0 :=
    (banksKeyCount_eq_zero t.Banks k).mpr fun d hd =>
      Fresh.keyCountL_zero d (hb d hd) k
  rw [hbz, Fresh.keyCountL_zero t.Overflow1.slots h1 k,
    Fresh.keyCountL_zero t.Overflow2.slots h2 k]

/-- A successful facade `Insert` splits into the passed capacity guard and a
successful core `insert`. -/
theorem Insert_ok_core (t : HashTable V) (k : Key) (v : V) (t1 : HashTable V)
    (h : Insert t k v = .ok t1) : insert t k v = (t1, true) := by
  rw [Insert] at h
  by_cases hg : t.Capacity ≤ t.Inserts
  · rw [if_pos hg] at h
    simp at h
  · rw [if_neg hg] at h
    cases hc : insert t k v with
    | mk t' ok =>
      rw [hc] at h
      cases ok with
      | true =>
        simp only [Except.ok.injEq] at h
        rw [h]
      | false => simp at h

/-- Invariant carried while replaying a list of successful inserts: every
already-inserted pair is found with its value and occupies exactly one slot,
and untouched keys occupy none. -/
theorem insertSeq_inv (ps : List (Key × V)) :
    ∀ (t0 : HashTable V) (done : List (Key × V)), WF t0 →
      (∀ p ∈ done, Get t0 p.1 = some p.2 ∧ keyCount t0 p.1 = 1) →
      (∀ k2, (∀ p ∈ done, p.1 ≠ k2) → keyCount t0 k2 = 0) →
      (ps.map Prod.fst).Nodup →
      (∀ p ∈ ps, ∀ q ∈ done, q.1 ≠ p.1) →
      ∀ t, insertSeq t0 ps = some t →
        ∀ p ∈ done ++ ps, Get t p.1 = some p.2 ∧ keyCount t p.1 = 1 := by
  induction ps with
  | nil =>
    intro t0 done hWF hdone hfree _ _ t h p hp
    rw [insertSeq] at h
    cases h
    simp only [List.append_nil] at hp
    exact hdone p hp
  | cons q ps ih =>
    intro t0 done hWF hdone hfree hnd hdisj t h
    rw [insertSeq] at h
    cases hins : Insert t0 q.1 q.2 with
    | error e =>
      rw [hins] at h
      simp at h
    | ok t1 =>
      rw [hins] at h
      have hcore : insert t0 q.1 q.2 = (t1, true) :=
        Insert_ok_core t0 q.1 q.2 t1 hins
      have hqfree : keyCount t0 q.1 = 0 :=
        hfree q.1 (fun p hp => hdisj q (by simp) p hp)
      obtain ⟨hWF1, hget1, hcnt1, hcnts, hpers⟩ :=
        insert_step t0 q.1 q.2 hWF hqfree t1 hcore
      have hknd : q.1 ∉ ps.map Prod.fst := by
        simp only [List.map_cons, List.nodup_cons] at hnd
        exact hnd.1
      have hres := ih t1 (done ++ [q]) hWF1
        (by
          intro p hp
          rcases List.mem_append.mp hp with hp | hp
          · have hne : p.1 ≠ q.1 := hdisj q (by simp) p hp
            exact ⟨hpers p.1 p.2 hne (hdone p hp).1 (hdone p hp).2,
              by rw [hcnts p.1 hne]; exact (hdone p hp).2⟩
          · simp only [List.mem_singleton] at hp
            subst hp
            exact ⟨hget1, hcnt1⟩)
        (by
          intro k2 hk2
          have hq : q.1 ≠ k2 := hk2 q (by simp)
          rw [hcnts k2 (Ne.symm hq)]
          exact hfree k2 fun p hp => hk2 p (by simp [hp]))
        (by
          simp only [List.map_cons, List.nodup_cons] at hnd
          exact hnd.2)
        (by
          intro p hp r hr
          rcases List.mem_append.mp hr with hr | hr
          · exact hdisj p (by simp [hp]) r hr
          · simp only [List.mem_singleton] at hr
            subst hr
            intro heq
            exact hknd (heq ▸ List.mem_map_of_mem Prod.fst hp))
        t h
      intro p hp
      apply hres
      rcases List.mem_append.mp hp with hp | hp
      · simp [hp]
      · rcases List.mem_cons.mp hp with hp | hp
        · simp [hp]
        · simp [hp]

/-! ### Further probe-sequence lemmas (claims C3, C4, C5) -/

theorem firstFreeAux_none_of_occupied (ovf : Overflow V) (hsh budget : Nat)
    (hocc : ∀ i2, i2 < budget →
      ovf.slots.getD (probeIdx ovf hsh i2) none ≠ none) :
    ∀ j, firstFreeAux ovf hsh budget j = none := by
  intro j
  induction j using firstFreeAux.induct ovf hsh budget with
  | case1 j hj hc =>
    exact absurd hc (hocc j hj)
  | case2 j hj s hc ih =>
    rw [firstFreeAux]
    simp only [dif_pos hj, hc]
    exact ih
  | case3 j hj =>
    rw [firstFreeAux]
    simp [hj]

theorem firstFreeAux_congr (ovf ovf2 : Overflow V)
    (hslots : ovf2.slots = ovf.slots) (hseed : ovf2.seed = ovf.seed)
    (hsf : ovf2.seedFn = ovf.seedFn) (hnf : ovf2.nextFn = ovf.nextFn)
    (hsh budget : Nat) :
    ∀ i, firstFreeAux ovf2 hsh budget i = firstFreeAux ovf hsh budget i := by
  have hidx := probeIdx_congr ovf ovf2 (by rw [hslots]) hseed hsf hnf hsh
  intro i
  induction i using firstFreeAux.induct ovf hsh budget with
  | case1 i hi hc =>
    conv_lhs => rw [firstFreeAux]
    conv_rhs => rw [firstFreeAux]
    simp only [dif_pos hi, hidx, hslots, hc]
  | case2 i hi s hc ih =>
    conv_lhs => rw [firstFreeAux]
    conv_rhs => rw [firstFreeAux]
    simp only [dif_pos hi, hidx, hslots, hc]
    exact ih
  | case3 i hi =>
    conv_lhs => rw [firstFreeAux]
    conv_rhs => rw [firstFreeAux]
    simp [hi]

theorem overflowUniformInsert_rnd_twoRun (ovf : Overflow V) (r : Nat)
    (hsh : Nat) (k : Key) (v : V) (fullProbe : Bool) :
    (overflowUniformInsert { ovf with rnd := r } hsh k v fullProbe).1.slots =
      (overflowUniformInsert ovf hsh k v fullProbe).1.slots ∧
    (overflowUniformInsert { ovf with rnd := r } hsh k v fullProbe).2 =
      (overflowUniformInsert ovf hsh k v fullProbe).2 := by
  have hff := firstFreeAux_congr ovf { ovf with rnd := r } rfl rfl rfl rfl hsh
    (probeBudget ovf fullProbe)
  have hidx := probeIdx_congr ovf { ovf with rnd := r } rfl rfl rfl rfl hsh
  have hbud : probeBudget { ovf with rnd := r } fullProbe =
      probeBudget ovf fullProbe := rfl
  rw [overflowUniformInsert, overflowUniformInsert, hbud, hff 0]
  cases hf : firstFreeAux ovf hsh (probeBudget ovf fullProbe) 0 with
  | none => exact ⟨rfl, rfl⟩
  | some i => simp [hidx i]

theorem overflowUniformInsert_shape (ovf : Overflow V) (hsh : Nat) (k : Key)
    (v : V) (fullProbe : Bool) :
    (overflowUniformInsert ovf hsh k v fullProbe).1.slots.length =
      ovf.slots.length ∧
    (overflowUniformInsert ovf hsh k v fullProbe).1.seed = ovf.seed ∧
    (overflowUniformInsert ovf hsh k v fullProbe).1.seedFn = ovf.seedFn ∧
    (overflowUniformInsert ovf hsh k v fullProbe).1.nextFn = ovf.nextFn := by
  rw [overflowUniformInsert]
  cases hf : firstFreeAux ovf hsh (probeBudget ovf fullProbe) 0 with
  | none => exact ⟨rfl, rfl, rfl, rfl⟩
  | some i => exact ⟨by simp, rfl, rfl, rfl⟩

theorem tcLookupAux_none_of_full_nomatch (slots : List (Option (Slot V)))
    (b1 b2 : Nat) (k : Key) (B : Nat)
    (hocc : ∀ j2, j2 < B → slots.getD (b1 + j2) none ≠ none ∧
      slots.getD (b2 + j2) none ≠ none)
    (hnom : ∀ j2, j2 < B →
      (∀ s : Slot V, slots.getD (b1 + j2) none = some s → s.key ≠ k) ∧
      (∀ s : Slot V, slots.getD (b2 + j2) none = some s → s.key ≠ k)) :
    ∀ j, tcLookupAux slots b1 b2 k B j = none := by
  intro j
  induction j using tcLookupAux.induct slots b1 b2 k B with
  | case1 j hj hc1 =>
    exact absurd hc1 (hocc j hj).1
  | case2 j hj s1 hc1 hk1 =>
    exact absurd hk1 ((hnom j hj).1 s1 hc1)
  | case3 j hj s1 hc1 hk1 hc2 =>
    exact absurd hc2 (hocc j hj).2
  | case4 j hj s1 hc1 hk1 s2 hc2 hk2 =>
    exact absurd hk2 ((hnom j hj).2 s2 hc2)
  | case5 j hj s1 hc1 hk1 s2 hc2 hk2 ih =>
    rw [tcLookupAux]
    simp only [dif_pos hj, hc1, if_neg hk1, hc2, if_neg hk2]
    exact ih
  | case6 j hj =>
    rw [tcLookupAux]
    simp [hj]

/-! ### Sizing lemmas (claim C7) -/

theorem banksLoop_sum (bankShrink : ℚ) (beta : Int) :
    ∀ (n : Nat) (slots : Int),
      (banksLoop bankShrink beta n slots).1.sum +
        (banksLoop bankShrink beta n slots).2 = slots := by
  intro n
  induction n with
  | zero =>
    intro slots
    simp [banksLoop]
  | succ n ih =>
    intro slots
    rw [banksLoop]
    by_cases h : beta < slots
    · simp only [if_pos h, List.sum_cons]
      have h2 := ih (slots - beta * ⌈(slots : ℚ) * (1 - bankShrink) / (beta : ℚ)⌉)
      omega
    · simp [if_neg h]

end funnel

namespace elastic2

variable {V : Type}

theorem e2firstFree_some (slots : List (Option (bslot V))) (offset probes : Nat) :
    ∀ j idx, e2firstFree slots offset probes j = some idx →
      ∃ j0, j ≤ j0 ∧ j0 < probes ∧ idx = (offset + j0) % probes ∧
        slots.getD idx none = none := by
  intro j
  induction j using e2firstFree.induct slots offset probes with
  | case1 j hj hc =>
    intro idx h
    rw [e2firstFree] at h
    simp only [dif_pos hj, hc] at h
    cases h
    exact ⟨j, le_refl j, hj, rfl, hc⟩
  | case2 j hj s hc ih =>
    intro idx h
    rw [e2firstFree] at h
    simp only [dif_pos hj, hc] at h
    obtain ⟨j0, h1, h2, h3, h4⟩ := ih idx h
    exact ⟨j0, by omega, h2, h3, h4⟩
  | case3 j hj =>
    intro idx h
    rw [e2firstFree] at h
    simp [hj] at h

theorem e2firstFree_none_of_occupied (slots : List (Option (bslot V)))
    (offset probes : Nat)
    (hocc : ∀ j2, j2 < probes → slots.getD ((offset + j2) % probes) none ≠ none) :
    ∀ j, e2firstFree slots offset probes j = none := by
  intro j
  induction j using e2firstFree.induct slots offset probes with
  | case1 j hj hc =>
    exact absurd hc (hocc j hj)
  | case2 j hj s hc ih =>
    rw [e2firstFree]
    simp only [dif_pos hj, hc]
    exact ih
  | case3 j hj =>
    rw [e2firstFree]
    simp [hj]

end elastic2

/-- Ceiling as negated floor of the negation, used to evaluate the sizing
arithmetic numerically (norm_num evaluates `Int.floor` but not `Int.ceil`). -/
theorem ceil_eq_neg_floor {α : Type _} [LinearOrderedRing α] [FloorRing α]
    (a : α) : ⌈a⌉ = -⌊-a⌋ := by rw [Int.floor_neg, neg_neg]

/-! ### Claim theorems -/

/-- C2: on a table whose insertion counter equals its declared (stored)
capacity, `Insert` always fails with the capacity error, returning the table
unchanged — no slot or counter is mutated — and the decision is taken before
the key is hashed: replacing the hasher by any other function leaves the
outcome identical. -/
theorem Insert_capacity_guard {V : Type} (t : funnel.HashTable V)
    (h : t.Inserts = t.Capacity) (k : Key) (v : V) :
    funnel.Insert t k v = .error (.tableFull, t) ∧
    ∀ hasher2 : Key → Nat,
      funnel.Insert { t with Hasher := hasher2 } k v =
        .error (.tableFull, { t with Hasher := hasher2 }) := by
  constructor
  · rw [funnel.Insert, if_pos (le_of_eq h.symm)]
  · intro hasher2
    rw [funnel.Insert, if_pos (le_of_eq h.symm : t.Capacity ≤ t.Inserts)]

/-- C2 witness: the guard fires on a concrete full table. -/
theorem Insert_capacity_guard_witness :
    funnel.Insert funnel.wfull [1] 5 = .error (.tableFull, funnel.wfull) :=
  (Insert_capacity_guard funnel.wfull rfl [1] 5).1

/-- C9: a funnel bank lookup never leaks across buckets: every slot it
returns carries the looked-up key and sits inside the hash-selected bucket of
one of the banks — at cell `bucketOffset + (innerOffset + j) % β` for some
`j < β`, i.e. within the `β` slots of that single bucket. -/
theorem bankLookup_bucket_confined {V : Type} (β hsh : Nat) (k : Key)
    (banks : List (funnel.BankData V)) (s : funnel.Slot V)
    (h : funnel.bankLookup β hsh k banks = some s) :
    s.key = k ∧ ∃ d ∈ banks, ∃ j0, j0 < β ∧
      d.getD (funnel.bankBucketOff d β hsh + (hsh % β + j0) % β) none = some s :=
  funnel.bankLookup_some β hsh k banks s h

/-- C9 witness: the slot found for key `[5]` (hash 1, bucket offset 2) lies
in bucket 1 of the single bank of `w9banks`. -/
theorem bankLookup_bucket_confined_witness :
    ∃ d ∈ funnel.w9banks, ∃ j0, j0 < 2 ∧
      d.getD (funnel.bankBucketOff d 2 1 + (1 % 2 + j0) % 2) none =
        some (⟨[5], 7⟩ : funnel.Slot Nat) := by
  have h : funnel.bankLookup 2 1 [5] funnel.w9banks = some ⟨[5], 7⟩ := by
    simp [funnel.bankLookup, funnel.bucketScanAux, funnel.bankBucketOff,
      funnel.w9banks]
  exact (bankLookup_bucket_confined 2 1 [5] funnel.w9banks ⟨[5], 7⟩ h).2

/-- C6 (amended): the funnel constructor rejects, in source order, a bank
shrink factor outside [1/2, 1), a delta outside (0, 1) and a non-positive
capacity, and the newest elastic constructor likewise rejects each parameter
outside its domain — both before any bank or overflow structure is built.
The `elastic2` constructor that the claim also cites performs no validation
at all (see the counterexample). -/
theorem constructor_validation (V : Type) (Hasher : Key → Nat)
    (seedFn : Nat → Nat) (nextFn : Nat → Nat × Nat) (ovf1Seed : Nat)
    (capacity : Int) (delta bankShrink : ℚ) (alpha beta : Nat) (loglogn : ℚ)
    (h : bankShrink < 1/2 ∨ 1 ≤ bankShrink ∨ delta ≤ 0 ∨ 1 ≤ delta ∨
      capacity ≤ 0) :
    (∃ e, funnel.NewHashTable V Hasher seedFn nextFn ovf1Seed capacity delta
      bankShrink alpha beta loglogn = .error e) ∧
    ∀ (cap2 : Int) (delta2 occ ff : ℚ),
      cap2 ≤ 0 ∨ delta2 ≤ 0 ∨ 1 ≤ delta2 ∨ occ ≤ 0 ∨ 1 ≤ occ ∨ ff ≤ 0 →
      ∃ e, elastic.NewHashTable V Hasher cap2 delta2 occ ff = .error e := by
  constructor
  · by_cases h1 : bankShrink < 1/2 ∨ 1 ≤ bankShrink
    · exact ⟨_, by rw [funnel.NewHashTable, if_pos h1]⟩
    · by_cases h2 : delta ≤ 0 ∨ 1 ≤ delta
      · exact ⟨_, by rw [funnel.NewHashTable, if_neg h1, if_pos h2]⟩
      · have h3 : capacity ≤ 0 := by tauto
        exact ⟨_, by rw [funnel.NewHashTable, if_neg h1, if_neg h2, if_pos h3]⟩
  · intro cap2 delta2 occ ff h0
    by_cases h1 : cap2 ≤ 0
    · exact ⟨_, by rw [elastic.NewHashTable, if_pos h1]⟩
    · by_cases h2 : delta2 ≤ 0 ∨ 1 ≤ delta2
      · exact ⟨_, by rw [elastic.NewHashTable, if_neg h1, if_pos h2]⟩
      · by_cases h3 : occ ≤ 0 ∨ 1 ≤ occ
        · exact ⟨_, by
            rw [elastic.NewHashTable, if_neg h1, if_neg h2, if_pos h3]⟩
        · have h4 : ff ≤ 0 := by tauto
          exact ⟨_, by
            rw [elastic.NewHashTable, if_neg h1, if_neg h2, if_neg h3,
              if_pos h4]⟩

/-- C6 witness: a funnel construction with `delta = 2 ∉ (0,1)` (and an
elastic construction with the same bad delta) is rejected. -/
theorem constructor_validation_witness :
    (∃ e, funnel.NewHashTable Nat (fun _ => 0) (fun x => x) (fun st => (st, st))
      0 10 2 (3/4) 14 2 1 = .error e) ∧
    (∃ e, elastic.NewHashTable Nat (fun _ => 0) 10 2 (1/2) 1 = .error e) := by
  have h := constructor_validation Nat (fun _ => 0) (fun x => x)
    (fun st => (st, st)) 0 10 2 (3/4) 14 2 1
    (Or.inr (Or.inr (Or.inr (Or.inl (by norm_num)))))
  exact ⟨h.1, h.2 10 2 (1/2) 1 (Or.inr (Or.inr (Or.inl (by norm_num))))⟩

/-- C6 counterexample: `elastic2.NewHashTable` — the constructor the claim
cites — cannot fail at all (it returns a table, not an error), and with the
out-of-domain `delta = 2 ∉ (0,1)` it still builds the table, storing the
invalid parameter and allocating the root bank of the rounded-up capacity. -/
theorem elastic2_constructor_no_validation :
    (elastic2.NewHashTable Nat (fun _ => 0) elastic2.log2OnPow 8 2 (3/4) 200).Delta
      = 2 ∧
    (elastic2.NewHashTable Nat (fun _ => 0) elastic2.log2OnPow 8 2 (3/4) 200).Capacity
      = 8 := by
  refine ⟨rfl, ?_⟩
  show 2 ^ Nat.clog 2 8 = 8
  rw [Nat.clog_of_two_le (by norm_num) (by norm_num),
    Nat.clog_of_two_le (by norm_num) (by norm_num)]
  norm_num [Nat.clog_eq_one]

/-- C3 (amended): the uniform overflow stage makes exactly `probeBudget`
probe attempts along its pseudorandom index sequence — `⌊loglogn⌋` attempts
when the two-choice stage exists and the full slot count when it is the last
stage (`fullProbe`) — and an insert fails exactly when every one of those
attempted indices is occupied; the lookup scans the same budgeted sequence.
The attempts are random draws that may revisit the same slot, so (contrary
to the claim) failure of the last stage does not imply that the whole table
was visited — see the counterexample. -/
theorem overflowUniform_probe_budget {V : Type} (ovf : funnel.Overflow V)
    (hsh : Nat) (k : Key) (v : V) (fullProbe : Bool) :
    funnel.probeBudget ovf fullProbe =
      (if fullProbe then ovf.slots.length else (⌊ovf.loglogn⌋).toNat) ∧
    ((funnel.overflowUniformInsert ovf hsh k v fullProbe).2 = false ↔
      ∀ i, i < funnel.probeBudget ovf fullProbe →
        ovf.slots.getD (funnel.probeIdx ovf hsh i) none ≠ none) ∧
    funnel.overflowUniformLookup ovf hsh k fullProbe =
      funnel.lookupAux ovf hsh k (funnel.probeBudget ovf fullProbe) 0 := by
  refine ⟨rfl, ?_, rfl⟩
  constructor
  · intro hfail
    rw [funnel.overflowUniformInsert] at hfail
    cases hff : funnel.firstFreeAux ovf hsh (funnel.probeBudget ovf fullProbe) 0 with
    | some i => rw [hff] at hfail; simp at hfail
    | none =>
      intro i hi
      exact funnel.firstFreeAux_none ovf hsh (funnel.probeBudget ovf fullProbe)
        0 hff i (Nat.zero_le i) hi
  · intro hocc
    rw [funnel.overflowUniformInsert,
      funnel.firstFreeAux_none_of_occupied ovf hsh
        (funnel.probeBudget ovf fullProbe) hocc 0]

/-- C3 counterexample: `cexOverflow` is a last-stage (`fullProbe`) uniform
overflow of two slots with slot 1 empty, but its generator constantly
returns 0, so both probe attempts revisit slot 0 and the insert reports
failure without ever visiting the whole table. -/
theorem overflowUniform_fail_without_full_visit :
    (funnel.overflowUniformInsert funnel.cexOverflow 0 [7] 7 true).2 = false ∧
    funnel.cexOverflow.slots.getD 1 none = none := by
  constructor
  · have hff : funnel.firstFreeAux funnel.cexOverflow 0 2 0 = none := by
      rw [funnel.firstFreeAux]
      norm_num [funnel.probeIdx, funnel.cexOverflow]
      rw [funnel.firstFreeAux]
      norm_num [funnel.probeIdx, funnel.rngDraw, funnel.rngState,
        funnel.seedState, funnel.cexOverflow]
      rw [funnel.firstFreeAux]
      norm_num
    rw [funnel.overflowUniformInsert]
    have hbud : funnel.probeBudget funnel.cexOverflow true = 2 := rfl
    rw [hbud, hff]
  · rfl

/-- C5: probe-sequence determinism of the uniform overflow stage.  The probe
index sequence is a function of the table seed, the seed/next generator
functions and the key's hash only: it is invariant under the stored generator
state `rnd` (which the per-call reseed `hash XOR seed` overwrites), an insert
gives the same written slots and the same outcome from any starting `rnd`,
the table an insert returns generates the same probe sequence again (so the
following lookup retraces the insert's path), and the lookup reads exactly
that sequence. -/
theorem overflowUniform_probe_deterministic {V : Type} (ovf : funnel.Overflow V)
    (r : Nat) (hsh : Nat) (k : Key) (v : V) (fullProbe : Bool) :
    (∀ i, funnel.probeIdx { ovf with rnd := r } hsh i =
      funnel.probeIdx ovf hsh i) ∧
    ((funnel.overflowUniformInsert { ovf with rnd := r } hsh k v fullProbe).1.slots =
      (funnel.overflowUniformInsert ovf hsh k v fullProbe).1.slots ∧
     (funnel.overflowUniformInsert { ovf with rnd := r } hsh k v fullProbe).2 =
      (funnel.overflowUniformInsert ovf hsh k v fullProbe).2) ∧
    (∀ i, funnel.probeIdx (funnel.overflowUniformInsert ovf hsh k v fullProbe).1
      hsh i = funnel.probeIdx ovf hsh i) ∧
    funnel.overflowUniformLookup ovf hsh k fullProbe =
      funnel.lookupAux ovf hsh k (funnel.probeBudget ovf fullProbe) 0 := by
  refine ⟨?_, funnel.overflowUniformInsert_rnd_twoRun ovf r hsh k v fullProbe,
    ?_, rfl⟩
  · refine funnel.probeIdx_congr ovf _ ?_ ?_ ?_ ?_ hsh <;> rfl
  · have h := funnel.overflowUniformInsert_shape ovf hsh k v fullProbe
    refine funnel.probeIdx_congr ovf _ ?_ ?_ ?_ ?_ hsh
    · exact h.1
    · exact h.2.1
    · exact h.2.2.1
    · exact h.2.2.2

/-- C4: two-choice overflow correctness.  With a positive bucket size that
fits in the table: (i) an insert fails exactly when every slot of both
candidate buckets is occupied; (ii) a successful insert places the entry at
the first empty slot in the lockstep order (slot j of bucket 1, then slot j
of bucket 2, for j = 0, 1, ...); (iii) when both buckets are full and the
key is stored in neither, the lookup reports it absent; (iv) after a
successful insert of a key that was not stored, the lookup finds it — in
whichever of the two buckets it was placed. -/
theorem overflowTwoChoice_lockstep {V : Type} (ovf : funnel.Overflow V)
    (hsh1 hsh2 : Nat) (k : Key) (v : V)
    (hB : 0 < funnel.tcBucketSize ovf)
    (hlen : funnel.tcBucketSize ovf ≤ ovf.slots.length) :
    ((funnel.overflowTwoChoiceInsert ovf hsh1 hsh2 k v).2 = false ↔
      ∀ j, j < funnel.tcBucketSize ovf →
        ovf.slots.getD (funnel.tcBucket ovf hsh1 + j) none ≠ none ∧
        ovf.slots.getD (funnel.tcBucket ovf hsh2 + j) none ≠ none) ∧
    (∀ ovf2, funnel.overflowTwoChoiceInsert ovf hsh1 hsh2 k v = (ovf2, true) →
      ∃ j0, j0 < funnel.tcBucketSize ovf ∧
        (∀ j2, j2 < j0 →
          ovf.slots.getD (funnel.tcBucket ovf hsh1 + j2) none ≠ none ∧
          ovf.slots.getD (funnel.tcBucket ovf hsh2 + j2) none ≠ none) ∧
        ((ovf.slots.getD (funnel.tcBucket ovf hsh1 + j0) none = none ∧
          ovf2.slots =
            ovf.slots.set (funnel.tcBucket ovf hsh1 + j0) (some ⟨k, v⟩)) ∨
         (ovf.slots.getD (funnel.tcBucket ovf hsh1 + j0) none ≠ none ∧
          ovf.slots.getD (funnel.tcBucket ovf hsh2 + j0) none = none ∧
          ovf2.slots =
            ovf.slots.set (funnel.tcBucket ovf hsh2 + j0) (some ⟨k, v⟩)))) ∧
    ((∀ j, j < funnel.tcBucketSize ovf →
        ovf.slots.getD (funnel.tcBucket ovf hsh1 + j) none ≠ none ∧
        ovf.slots.getD (funnel.tcBucket ovf hsh2 + j) none ≠ none) →
      (∀ j, j < funnel.tcBucketSize ovf →
        (∀ s : funnel.Slot V,
          ovf.slots.getD (funnel.tcBucket ovf hsh1 + j) none = some s →
            s.key ≠ k) ∧
        (∀ s : funnel.Slot V,
          ovf.slots.getD (funnel.tcBucket ovf hsh2 + j) none = some s →
            s.key ≠ k)) →
      funnel.overflowTwoChoiceLookup ovf hsh1 hsh2 k = none) ∧
    (∀ ovf2, funnel.overflowTwoChoiceInsert ovf hsh1 hsh2 k v = (ovf2, true) →
      funnel.keyCountL ovf.slots k = 0 →
      funnel.overflowTwoChoiceLookup ovf2 hsh1 hsh2 k = some ⟨k, v⟩) := by
  refine ⟨?_, ?_, ?_, ?_⟩
  · constructor
    · intro hfail
      rw [funnel.overflowTwoChoiceInsert] at hfail
      cases htc : funnel.tcInsertAux ovf.slots (funnel.tcBucket ovf hsh1)
          (funnel.tcBucket ovf hsh2) k v (funnel.tcBucketSize ovf) 0 with
      | some slots2 => rw [htc] at hfail; simp at hfail
      | none =>
        intro j hj
        exact funnel.tcInsertAux_none ovf.slots (funnel.tcBucket ovf hsh1)
          (funnel.tcBucket ovf hsh2) k v (funnel.tcBucketSize ovf) 0 htc j
          (Nat.zero_le j) hj
    · intro hocc
      rw [funnel.overflowTwoChoiceInsert,
        funnel.tcInsertAux_none_of_occupied ovf.slots (funnel.tcBucket ovf hsh1)
          (funnel.tcBucket ovf hsh2) k v (funnel.tcBucketSize ovf)
          (fun j hj => hocc j hj) 0]
  · intro ovf2 hins
    rw [funnel.overflowTwoChoiceInsert] at hins
    cases htc : funnel.tcInsertAux ovf.slots (funnel.tcBucket ovf hsh1)
        (funnel.tcBucket ovf hsh2) k v (funnel.tcBucketSize ovf) 0 with
    | none => rw [htc] at hins; simp at hins
    | some slots2 =>
      rw [htc] at hins
      simp only [Prod.mk.injEq] at hins
      obtain ⟨hovf2, _⟩ := hins
      obtain ⟨j0, _, hj0, hocc, hcase⟩ := funnel.tcInsertAux_some ovf.slots
        (funnel.tcBucket ovf hsh1) (funnel.tcBucket ovf hsh2) k v
        (funnel.tcBucketSize ovf) 0 slots2 htc
      have hsl : ovf2.slots = slots2 := by rw [← hovf2]
      exact ⟨j0, hj0, fun j2 hj2 => hocc j2 (Nat.zero_le j2) hj2, by
        rw [hsl]; exact hcase⟩
  · intro hocc hnom
    rw [funnel.overflowTwoChoiceLookup]
    exact funnel.tcLookupAux_none_of_full_nomatch ovf.slots
      (funnel.tcBucket ovf hsh1) (funnel.tcBucket ovf hsh2) k
      (funnel.tcBucketSize ovf) hocc hnom 0
  · intro ovf2 hins hfree
    rw [funnel.overflowTwoChoiceInsert] at hins
    cases htc : funnel.tcInsertAux ovf.slots (funnel.tcBucket ovf hsh1)
        (funnel.tcBucket ovf hsh2) k v (funnel.tcBucketSize ovf) 0 with
    | none => rw [htc] at hins; simp at hins
    | some slots2 =>
      rw [htc] at hins
      simp only [Prod.mk.injEq] at hins
      obtain ⟨hovf2, _⟩ := hins
      have hb1 : funnel.tcBucket ovf hsh1 + funnel.tcBucketSize ovf ≤
          ovf.slots.length := funnel.tcBucket_add_le ovf hsh1 hB hlen
      have hb2 : funnel.tcBucket ovf hsh2 + funnel.tcBucketSize ovf ≤
          ovf.slots.length := funnel.tcBucket_add_le ovf hsh2 hB hlen
      have hfind := funnel.tcLookup_after_insert ovf.slots slots2
        (funnel.tcBucket ovf hsh1) (funnel.tcBucket ovf hsh2)
        (funnel.tcBucketSize ovf) k v hb1 hb2 hfree htc
      have hlen2 : slots2.length = ovf.slots.length := by
        obtain ⟨j0, _, hj0, _, hcase⟩ := funnel.tcInsertAux_some ovf.slots
          (funnel.tcBucket ovf hsh1) (funnel.tcBucket ovf hsh2) k v
          (funnel.tcBucketSize ovf) 0 slots2 htc
        rcases hcase with ⟨_, hset⟩ | ⟨_, _, hset⟩ <;> rw [hset] <;> simp
      have hbk1 : funnel.tcBucket ovf2 hsh1 = funnel.tcBucket ovf hsh1 := by
        refine funnel.tcBucket_congr ovf _ ?_ ?_ hsh1 <;>
          rw [← hovf2] <;> simp [hlen2]
      have hbk2 : funnel.tcBucket ovf2 hsh2 = funnel.tcBucket ovf hsh2 := by
        refine funnel.tcBucket_congr ovf _ ?_ ?_ hsh2 <;>
          rw [← hovf2] <;> simp [hlen2]
      have hBB : funnel.tcBucketSize ovf2 = funnel.tcBucketSize ovf := by
        rw [← hovf2]
        rfl
      have hsl : ovf2.slots = slots2 := by rw [← hovf2]
      rw [funnel.overflowTwoChoiceLookup, hbk1, hbk2, hBB, hsl]
      exact hfind

/-- C4 witness: inserting key `[3]` into the empty two-bucket table
`w2Overflow` with bucket pair (0, 1) and then looking it up finds it. -/
theorem overflowTwoChoice_lockstep_witness :
    funnel.overflowTwoChoiceLookup funnel.w2after 0 1 [3] = some ⟨[3], 33⟩ := by
  have hins : funnel.overflowTwoChoiceInsert funnel.w2Overflow 0 1 [3] 33 =
      (funnel.w2after, true) := by
    rw [funnel.overflowTwoChoiceInsert]
    have htc : funnel.tcInsertAux funnel.w2Overflow.slots
        (funnel.tcBucket funnel.w2Overflow 0) (funnel.tcBucket funnel.w2Overflow 1)
        [3] 33 (funnel.tcBucketSize funnel.w2Overflow) 0 =
        some funnel.w2after.slots := by
      rw [funnel.tcInsertAux]
      norm_num [funnel.tcBucket, funnel.tcBuckets, funnel.tcBucketSize,
        funnel.w2Overflow, funnel.w2after]
    rw [htc]
    rfl
  exact (overflowTwoChoice_lockstep funnel.w2Overflow 0 1 [3] 33
    (by norm_num [funnel.tcBucketSize, funnel.w2Overflow])
    (by norm_num [funnel.tcBucketSize, funnel.w2Overflow])).2.2.2
    funnel.w2after hins (by decide)

/-- C7 (amended): the funnel constructor's total slot allocation — banks
plus both overflow tables — always equals the bank-loop result plus the
overflow pool, and when the bank loop's residual slot count is below `beta`
(so the residue is folded back into the overflow pool) the total equals the
inflated capacity `n + ⌊n·delta⌋ ≥ n`.  Without that proviso the claim is
false: when the loop exhausts its `alpha` iterations with `beta` or more
slots left, the residue is silently dropped and the total falls below the
requested capacity (see the counterexample). -/
theorem newHashTable_total_slots (capacity : Int) (delta bankShrink : ℚ)
    (alpha beta : Nat) (loglogn : ℚ) (hcap : 0 < capacity) (hd : 0 < delta)
    (hrem : (funnel.NewSizing capacity delta bankShrink alpha beta
      loglogn).rem < (beta : Int)) :
    (funnel.NewSizing capacity delta bankShrink alpha beta
      loglogn).totalSlots = capacity + ⌊(capacity : ℚ) * delta⌋ ∧
    capacity ≤ (funnel.NewSizing capacity delta bankShrink alpha beta
      loglogn).totalSlots := by
  have hfloor : (0 : Int) ≤ ⌊(capacity : ℚ) * delta⌋ :=
    Int.floor_nonneg.mpr (by positivity)
  have hsum := funnel.banksLoop_sum bankShrink (beta : Int) alpha
    ((capacity + ⌊(capacity : ℚ) * delta⌋) -
      Int.tdiv (⌊delta * (capacity : ℚ) * bankShrink⌋ +
        ⌈delta * (capacity : ℚ) * (1/2 : ℚ)⌉) 2)
  have hbanks : (funnel.NewSizing capacity delta bankShrink alpha beta
      loglogn).bankSizes = (funnel.banksLoop bankShrink (beta : Int) alpha
      ((capacity + ⌊(capacity : ℚ) * delta⌋) -
        Int.tdiv (⌊delta * (capacity : ℚ) * bankShrink⌋ +
          ⌈delta * (capacity : ℚ) * (1/2 : ℚ)⌉) 2)).1 := rfl
  have hremeq : (funnel.NewSizing capacity delta bankShrink alpha beta
      loglogn).rem = (funnel.banksLoop bankShrink (beta : Int) alpha
      ((capacity + ⌊(capacity : ℚ) * delta⌋) -
        Int.tdiv (⌊delta * (capacity : ℚ) * bankShrink⌋ +
          ⌈delta * (capacity : ℚ) * (1/2 : ℚ)⌉) 2)).2 := rfl
  have hovf : (funnel.NewSizing capacity delta bankShrink alpha beta
      loglogn).overflowSlots =
      Int.tdiv (⌊delta * (capacity : ℚ) * bankShrink⌋ +
        ⌈delta * (capacity : ℚ) * (1/2 : ℚ)⌉) 2 +
      (funnel.NewSizing capacity delta bankShrink alpha beta loglogn).rem := by
    show (if (funnel.NewSizing capacity delta bankShrink alpha beta
        loglogn).rem < (beta : Int) then
          Int.tdiv (⌊delta * (capacity : ℚ) * bankShrink⌋ +
            ⌈delta * (capacity : ℚ) * (1/2 : ℚ)⌉) 2 +
          (funnel.NewSizing capacity delta bankShrink alpha beta loglogn).rem
        else
          Int.tdiv (⌊delta * (capacity : ℚ) * bankShrink⌋ +
            ⌈delta * (capacity : ℚ) * (1/2 : ℚ)⌉) 2) =
      Int.tdiv (⌊delta * (capacity : ℚ) * bankShrink⌋ +
        ⌈delta * (capacity : ℚ) * (1/2 : ℚ)⌉) 2 +
      (funnel.NewSizing capacity delta bankShrink alpha beta loglogn).rem
    rw [if_pos hrem]
  have htot : (funnel.NewSizing capacity delta bankShrink alpha beta
      loglogn).totalSlots =
      (funnel.NewSizing capacity delta bankShrink alpha beta
        loglogn).bankSizes.sum +
      ((funnel.NewSizing capacity delta bankShrink alpha beta
        loglogn).overflowSlots -
       (funnel.NewSizing capacity delta bankShrink alpha beta
        loglogn).ovf2Slots) +
      (funnel.NewSizing capacity delta bankShrink alpha beta
        loglogn).ovf2Slots := rfl
  rw [hovf] at htot
  rw [← hbanks, ← hremeq] at hsum
  constructor
  · omega
  · omega

/-- C7 witness: requested capacity 100 with delta = 1/2 (for which the Go
code computes alpha = 14, beta = 2), shrink 1/2: the bank loop ends with
remainder 1 < beta, and in total 150 = 100 + ⌊100·(1/2)⌋ ≥ 100 slots are
allocated. -/
theorem newHashTable_total_slots_witness :
    (funnel.NewSizing 100 (1/2) (1/2) 14 2 (17/5)).totalSlots =
      100 + ⌊((100 : Int) : ℚ) * (1/2)⌋ ∧
    (100 : Int) ≤ (funnel.NewSizing 100 (1/2) (1/2) 14 2 (17/5)).totalSlots :=
  newHashTable_total_slots 100 (1/2) (1/2) 14 2 (17/5) (by norm_num)
    (by norm_num)
    (by norm_num [funnel.NewSizing, funnel.banksLoop, ceil_eq_neg_floor,
      Int.tdiv])

/-- C7 counterexample: all parameters valid — capacity 1000, delta = 1/2
(so alpha = ⌈4·log2 2⌉ + 10 = 14 and beta = ⌈2·log2 2⌉ = 2 as the Go code
computes them), shrink 999/1000 ∈ [1/2, 1) — yet the bank loop exhausts its
14 iterations with remainder 1098 ≥ beta, which is dropped: the constructor
allocates 402 slots in total, far below the requested 1000.  (The total does
not depend on `loglogn`, pinned here at 17/5 = ⌊10·log2 log2 1500⌋/10 scale;
`loglogn` only splits the overflow pool between its two stages.) -/
theorem newHashTable_total_slots_cex :
    ((0 : ℚ) < 1/2 ∧ (1 : ℚ)/2 < 1 ∧ (1 : ℚ)/2 ≤ 999/1000 ∧
      (999 : ℚ)/1000 < 1) ∧
    (funnel.NewSizing 1000 (1/2) (999/1000) 14 2 (17/5)).totalSlots = 402 ∧
    (402 : Int) < 1000 := by
  refine ⟨by norm_num, ?_, by norm_num⟩
  norm_num [funnel.NewSizing, funnel.Sizing.totalSlots, funnel.banksLoop,
    ceil_eq_neg_floor, Int.tdiv]

/-- C1: round trip.  Starting from any well-formed, all-empty funnel table
(the shape `NewHashTable` produces) and performing a sequence of successful
`Insert` calls whose keys are pairwise distinct, a subsequent `Get` for any
inserted key returns exactly the value inserted with it. -/
theorem Insert_Get_roundtrip {V : Type} (t0 : funnel.HashTable V)
    (hWF : funnel.WF t0) (hFresh : funnel.Fresh t0) (ps : List (Key × V))
    (hnd : (ps.map Prod.fst).Nodup) (t : funnel.HashTable V)
    (ht : funnel.insertSeq t0 ps = some t) :
    ∀ p ∈ ps, funnel.Get t p.1 = some p.2 := by
  intro p hp
  exact (funnel.insertSeq_inv ps t0 [] hWF (by simp)
    (fun k2 _ => funnel.Fresh.keyCount_zero t0 hFresh k2) hnd (by simp) t ht
    p (by simpa using hp)).1

/-- C1 witness: two successful inserts into the fresh table `wtable`, then
both keys are read back with their values. -/
theorem Insert_Get_roundtrip_witness :
    funnel.insertSeq funnel.wtable [([1], 11), ([2], 22)] =
      some funnel.wtableAfter ∧
    funnel.Get funnel.wtableAfter [1] = some 11 ∧
    funnel.Get funnel.wtableAfter [2] = some 22 := by
  have ht : funnel.insertSeq funnel.wtable [([1], 11), ([2], 22)] =
      some funnel.wtableAfter := by
    rw [funnel.insertSeq]
    norm_num [funnel.Insert, funnel.insert, funnel.bankInsert,
      funnel.bucketInsertAux, funnel.bankBucketOff, funnel.wtable]
    rw [funnel.insertSeq]
    norm_num [funnel.Insert, funnel.insert, funnel.bankInsert,
      funnel.bucketInsertAux, funnel.bankBucketOff]
    rw [funnel.insertSeq]
    norm_num [funnel.wtableAfter]
  have h := Insert_Get_roundtrip funnel.wtable
    (by simp [funnel.WF, funnel.tcBucketSize, funnel.wtable])
    (by simp [funnel.Fresh, funnel.wtable])
    [([1], 11), ([2], 22)] (by decide) funnel.wtableAfter ht
  exact ⟨ht, h ([1], 11) (by decide), h ([2], 22) (by decide)⟩

/-- C10: the funnel constructor stores the inflated capacity
`n + ⌊n·delta⌋`; `Cap` reports that inflated value, which strictly exceeds
the requested `n` whenever `n·delta ≥ 1`; and the capacity-exhausted check
of `Insert` compares the insertion counter against the stored (inflated)
value — a table whose counter is below the stored capacity is never rejected
with the capacity error, so after `n` insertions the guard still admits
further keys. -/
theorem Cap_inflated_capacity (V : Type) (Hasher : Key → Nat)
    (seedFn : Nat → Nat) (nextFn : Nat → Nat × Nat) (ovf1Seed : Nat)
    (capacity : Int) (delta bankShrink : ℚ) (alpha beta : Nat) (loglogn : ℚ)
    (tb : funnel.HashTable V)
    (hok : funnel.NewHashTable V Hasher seedFn nextFn ovf1Seed capacity delta
      bankShrink alpha beta loglogn = .ok tb) :
    tb.Capacity = (capacity + ⌊(capacity : ℚ) * delta⌋).toNat ∧
    funnel.Cap tb = (capacity + ⌊(capacity : ℚ) * delta⌋).toNat ∧
    (1 ≤ (capacity : ℚ) * delta → 0 < capacity →
      capacity.toNat < funnel.Cap tb) ∧
    (∀ (t : funnel.HashTable V) (k : Key) (v : V), t.Inserts < t.Capacity →
      ∀ t2, funnel.Insert t k v ≠ .error (.tableFull, t2)) := by
  have hcapeq : tb.Capacity = (capacity + ⌊(capacity : ℚ) * delta⌋).toNat := by
    rw [funnel.NewHashTable] at hok
    by_cases h1 : bankShrink < 1/2 ∨ 1 ≤ bankShrink
    · rw [if_pos h1] at hok; simp at hok
    · rw [if_neg h1] at hok
      by_cases h2 : delta ≤ 0 ∨ 1 ≤ delta
      · rw [if_pos h2] at hok; simp at hok
      · rw [if_neg h2] at hok
        by_cases h3 : capacity ≤ 0
        · rw [if_pos h3] at hok; simp at hok
        · rw [if_neg h3] at hok
          simp only [Except.ok.injEq] at hok
          rw [← hok]
          rfl
  refine ⟨hcapeq, hcapeq, ?_, ?_⟩
  · intro hprod hpos
    have hfl : (1 : Int) ≤ ⌊(capacity : ℚ) * delta⌋ := by
      rw [Int.le_floor]
      exact_mod_cast hprod
    rw [funnel.Cap, hcapeq]
    omega
  · intro t k v hlt t2
    rw [funnel.Insert, if_neg (by omega)]
    cases hc : funnel.insert t k v with
    | mk t3 ok =>
      cases ok with
      | true => simp
      | false => simp

/-- C10 witness: requested capacity 10 with delta = 1/2 builds a table whose
stored and reported capacity is the inflated 15 > 10. -/
theorem Cap_inflated_capacity_witness :
    ∃ tb : funnel.HashTable Nat,
      funnel.NewHashTable Nat (fun kk => kk.headD 0) (fun x => x)
        (fun st => (st, st)) 0 10 (1/2) (1/2) 14 2 (17/5) = .ok tb ∧
      funnel.Cap tb = 15 ∧ (10 : Int).toNat < funnel.Cap tb := by
  obtain ⟨tb, htb⟩ : ∃ tb, funnel.NewHashTable Nat (fun kk => kk.headD 0)
      (fun x => x) (fun st => (st, st)) 0 10 (1/2) (1/2) 14 2 (17/5) =
      .ok tb := by
    rw [funnel.NewHashTable, if_neg (by norm_num), if_neg (by norm_num),
      if_neg (by norm_num)]
    exact ⟨_, rfl⟩
  have h := Cap_inflated_capacity Nat (fun kk => kk.headD 0) (fun x => x)
    (fun st => (st, st)) 0 10 (1/2) (1/2) 14 2 (17/5) tb htb
  refine ⟨tb, htb, ?_, ?_⟩
  · rw [h.2.1]
    norm_num
    decide
  · exact h.2.2.1 (by norm_num) (by norm_num)

/-- C8 (amended): in the `otherwise` row of the elastic insert decision
table (current bank's free fraction ε1 above δ/2 and next bank's free
fraction above the shrink threshold) the current bank is probed for the
limited count `uint32(c · min(log2(1/ε1)², log2(1/δ)))` clamped into
`[1, len(slots)]`, and when every one of those probes hits an occupied slot
the insert moves to the next bank by RECURSION, which re-evaluates the
decision table for that bank — contrary to the claim, the next bank is
probed fully only when ITS OWN successor falls below the shrink threshold
(see the counterexample, where the second bank is again probed only
partially). -/
theorem elastic2_otherwise_row {V : Type} (delta bankShrink c : ℚ)
    (log2fn : ℚ → ℚ) (hsh : Nat) (k : Key) (v : V) (b r : elastic2.bbank V)
    (rs : List (elastic2.bbank V))
    (he1 : elastic2.eps1 b > delta / 2)
    (he2 : elastic2.eps1 r > bankShrink) :
    elastic2.e2probes delta bankShrink c log2fn b (r :: rs) =
      max (min (⌊c * min ((log2fn (1 / elastic2.eps1 b)) ^ 2)
        (log2fn (1 / delta))⌋.toNat) b.Slots.length) 1 ∧
    ((∀ j, j < elastic2.e2probes delta bankShrink c log2fn b (r :: rs) →
        b.Slots.getD ((hsh % b.Slots.length + j) %
          elastic2.e2probes delta bankShrink c log2fn b (r :: rs)) none ≠
          none) →
      elastic2.insert delta bankShrink c log2fn hsh k v (b :: r :: rs) =
        (elastic2.insert delta bankShrink c log2fn hsh k v (r :: rs)).map
          (b :: ·)) := by
  have hprobes : elastic2.e2probes delta bankShrink c log2fn b (r :: rs) =
      elastic2.probeLimit delta c log2fn b := by
    rw [elastic2.e2probes, if_pos ⟨he1, he2⟩]
  constructor
  · rw [hprobes, elastic2.probeLimit]
  · intro hocc
    have hff : elastic2.e2firstFree b.Slots (hsh % b.Slots.length)
        (elastic2.e2probes delta bankShrink c log2fn b (r :: rs)) 0 = none :=
      elastic2.e2firstFree_none_of_occupied b.Slots (hsh % b.Slots.length)
        (elastic2.e2probes delta bankShrink c log2fn b (r :: rs)) hocc 0
    conv_lhs => rw [elastic2.insert]
    rw [hff]

/-- C8 witness: in the concrete three-bank chain below, bank A's decision row
is `otherwise` (ε1 = 1/2 > δ/2 = 1/4, next bank free fraction 1/2 above the
shrink 1/4), the limited probe count evaluates to 3, the probe window is
fully occupied, and the insert recurses into the remaining chain. -/
theorem elastic2_otherwise_row_witness :
    elastic2.insert (1/2) (1/4) 3 elastic2.log2OnPow 5 [7] 7
        [elastic2.cexBankA, elastic2.cexBankB, elastic2.cexBankC] =
      (elastic2.insert (1/2) (1/4) 3 elastic2.log2OnPow 5 [7] 7
        [elastic2.cexBankB, elastic2.cexBankC]).map (elastic2.cexBankA :: ·) :=
  (elastic2_otherwise_row (1/2) (1/4) 3 elastic2.log2OnPow 5 [7] 7
    elastic2.cexBankA elastic2.cexBankB [elastic2.cexBankC]
    (by norm_num [elastic2.eps1, elastic2.cexBankA, elastic2.cexSlot])
    (by norm_num [elastic2.eps1, elastic2.cexBankB, elastic2.cexSlot])).2
    (by
      have h3 : elastic2.e2probes (1/2) (1/4) 3 elastic2.log2OnPow
          elastic2.cexBankA [elastic2.cexBankB, elastic2.cexBankC] = 3 := by
        norm_num [elastic2.e2probes, elastic2.probeLimit, elastic2.eps1,
          elastic2.eps2, elastic2.log2OnPow, elastic2.cexBankA,
          elastic2.cexBankB, elastic2.cexSlot]
        decide
      rw [h3]
      decide)

/-- C8 counterexample: with δ = 1/2, shrink = 1/4, c = 3 and hash 5, all
three banks evaluate the `otherwise` row with limited probe count 3 (window
indices 2, 0, 1).  Banks A and B have those three cells occupied, so the
probes fail on both — and the insert then probes bank B only for the same
limited count (not fully: B's cell 3 is empty yet never probed) before the
key finally lands in bank C's cell 2. -/
theorem elastic2_second_bank_not_probed_fully :
    elastic2.insert (1/2) (1/4) 3 elastic2.log2OnPow 5 [7] 7
        [elastic2.cexBankA, elastic2.cexBankB, elastic2.cexBankC] =
      some [elastic2.cexBankA, elastic2.cexBankB,
        ⟨elastic2.cexBankC.Slots.set 2 (some ⟨0, [7], 7⟩),
          elastic2.cexBankC.Inserts + 1⟩] ∧
    elastic2.cexBankB.Slots.getD 3 none = none := by
  constructor
  · have hpA : elastic2.e2probes (1/2) (1/4) 3 elastic2.log2OnPow
        elastic2.cexBankA [elastic2.cexBankB, elastic2.cexBankC] = 3 := by
      norm_num [elastic2.e2probes, elastic2.probeLimit, elastic2.eps1,
        elastic2.eps2, elastic2.log2OnPow, elastic2.cexBankA,
        elastic2.cexBankB, elastic2.cexSlot]
      decide
    have hpB : elastic2.e2probes (1/2) (1/4) 3 elastic2.log2OnPow
        elastic2.cexBankB [elastic2.cexBankC] = 3 := by
      norm_num [elastic2.e2probes, elastic2.probeLimit, elastic2.eps1,
        elastic2.eps2, elastic2.log2OnPow, elastic2.cexBankB,
        elastic2.cexBankC, elastic2.cexSlot]
      decide
    have hpC : elastic2.e2probes (1/2) (1/4) 3 elastic2.log2OnPow
        elastic2.cexBankC [] = 3 := by
      norm_num [elastic2.e2probes, elastic2.probeLimit, elastic2.eps1,
        elastic2.eps2, elastic2.log2OnPow, elastic2.cexBankC,
        elastic2.cexSlot]
      decide
    have hffA : elastic2.e2firstFree elastic2.cexBankA.Slots
        (5 % elastic2.cexBankA.Slots.length) 3 0 = none :=
      elastic2.e2firstFree_none_of_occupied elastic2.cexBankA.Slots
        (5 % elastic2.cexBankA.Slots.length) 3 (by decide) 0
    have hffB : elastic2.e2firstFree elastic2.cexBankB.Slots
        (5 % elastic2.cexBankB.Slots.length) 3 0 = none :=
      elastic2.e2firstFree_none_of_occupied elastic2.cexBankB.Slots
        (5 % elastic2.cexBankB.Slots.length) 3 (by decide) 0
    have hffC : elastic2.e2firstFree elastic2.cexBankC.Slots
        (5 % elastic2.cexBankC.Slots.length) 3 0 = some 2 := by
      rw [elastic2.e2firstFree]
      norm_num [elastic2.cexBankC]
    conv_lhs => rw [elastic2.insert]
    simp only [hpA, hffA]
    conv_lhs => rw [elastic2.insert]
    simp only [hpB, hffB]
    conv_lhs => rw [elastic2.insert]
    simp only [hpC, hffC]
    rfl
  · rfl

end FunnelHash
